import Mathlib

/-!
# Tiled: the document manager (`src/tiled/documentmanager.cpp`)

A shallow embedding of `Tiled::Internal::DocumentManager`.  The manager keeps a
list of open map documents next to a `QTabWidget` with one tab per document, an
undo group, the selected tool and the scene that currently holds that tool.

Objects are referred to by address, a natural number with `0` the null
pointer.  The objects the manager points at (views, scenes, documents) live in
explicit heap fields of the state.  Every operation returns `Option`: `none` stands for a
failed `Q_ASSERT`, an out-of-range `QList` access or a call through a null or
dangling pointer.
-/

namespace Tiled

/-! ## Objects the manager points at -/

/-- The two `MapScene` calls whose order is recorded. -/
inductive SceneCall where
  | enable
  | disable
  deriving DecidableEq

/-- Modelled from the spec: `MapScene` (mapscene.h is not among the sources).
The state of one scene as far as the manager drives it: the document given to
`setMapDocument`, the tool given to `setSelectedTool`, and whether the last of
`enableSelectedTool` / `disableSelectedTool` called on it was the former. -/
structure MapScene where
  mapDocument : Nat
  selectedTool : Nat
  toolEnabled : Bool
  deriving DecidableEq

/-- Modelled from the spec: `MapView` (mapview.h is not among the sources).
A view shows the scene given to `setScene`, returned by `mapScene()`. -/
structure MapView where
  scene : Nat
  deriving DecidableEq

/-- Modelled from the spec: `MapDocument::undoStack()` (mapdocument.h is not
among the sources).  Every document has one undo stack of its own, so a stack is
named by the document that owns it. -/
structure QUndoStack where
  owner : Nat
  deriving DecidableEq

/-- The undo stack of the document at `mapDocument`. -/
def MapDocument.undoStack (mapDocument : Nat) : QUndoStack := ⟨mapDocument⟩

/-! ## Toolkit classes -/

/-- Models `QUndoGroup`: the member stacks and the active stack (`none` is null). -/
structure QUndoGroup where
  members : List QUndoStack
  activeStack : Option QUndoStack
  deriving DecidableEq

/-- Models `QUndoGroup::addStack`: a stack that is already a member is not added
again. -/
def QUndoGroup.addStack (g : QUndoGroup) (stack : QUndoStack) : QUndoGroup :=
  if stack ∈ g.members then g else { g with members := g.members ++ [stack] }

/-- Models `QUndoGroup::setActiveStack`: "if the stack is not a member of this group,
this function does nothing". -/
def QUndoGroup.setActiveStack (g : QUndoGroup) (stack : QUndoStack) : QUndoGroup :=
  if stack ∈ g.members then { g with activeStack := some stack } else g

/-- Models `QUndoGroup::removeStack`: a stack that is not a member is left alone;
otherwise it leaves the member list, and when it was the active stack the group
has no active stack any more. -/
def QUndoGroup.removeStack (g : QUndoGroup) (stack : QUndoStack) : QUndoGroup :=
  if stack ∈ g.members then
    { members := g.members.filter (fun m => decide (m ≠ stack))
      activeStack := if g.activeStack = some stack then none else g.activeStack }
  else g

/-- One page of a `QTabWidget`: the page widget, the tab text and the tool
tip. -/
structure Tab where
  widget : Nat
  text : String
  toolTip : String
  deriving DecidableEq

/-- Models `QTabWidget`: the pages in tab order and the current index (`-1` when there
is no current tab). -/
structure QTabWidget where
  tabs : List Tab
  currentIndex : Int
  deriving DecidableEq

namespace QTabWidget

/-- Models `QTabBarPrivate::validIndex`. -/
def validIndex (w : QTabWidget) (index : Int) : Bool :=
  decide (0 ≤ index) && decide (index < (w.tabs.length : Int))

/-- Models `QTabWidget::setCurrentIndex`.  The current index changes only when `index`
is valid and differs from it; the Boolean tells whether `currentChanged` was
emitted. -/
def setCurrentIndex (w : QTabWidget) (index : Int) : QTabWidget × Bool :=
  if w.validIndex index && decide (w.currentIndex ≠ index) then
    ({ w with currentIndex := index }, true)
  else (w, false)

/-- Models `QTabWidget::addTab`: the page is appended.  The first tab of an empty
widget becomes current (with `currentChanged`); a tab inserted at or before the
current one shifts the current index without a signal. -/
def addTab (w : QTabWidget) (page : Nat) (label : String) : QTabWidget × Bool :=
  if page = 0 then (w, false)
  else
    let index : Int := w.tabs.length
    let w1 : QTabWidget := { w with tabs := w.tabs ++ [⟨page, label, ""⟩] }
    if w1.tabs.length = 1 then w1.setCurrentIndex index
    else if index ≤ w1.currentIndex then ({ w1 with currentIndex := w1.currentIndex + 1 }, false)
    else (w1, false)

/-- Models `QTabWidget::removeTab` with the default `QTabBar::SelectRightTab`
behaviour.  Removing the current tab resets the current index and then selects
the tab that took its place (the last tab when the removed one was last),
emitting `currentChanged`; when no tab is left `currentChanged(-1)` is emitted.
Removing a tab before the current one moves the current index down. -/
def removeTab (w : QTabWidget) (index : Int) : QTabWidget × Bool :=
  if w.validIndex index then
    let tabs1 := w.tabs.eraseIdx index.toNat
    if index = w.currentIndex then
      let w1 : QTabWidget := { tabs := tabs1, currentIndex := -1 }
      if 0 < tabs1.length then
        let newIndex : Int := if (tabs1.length : Int) ≤ index then (tabs1.length : Int) - 1 else index
        w1.setCurrentIndex newIndex
      else (w1, true)
    else if index < w.currentIndex then
      ({ w with tabs := tabs1 } : QTabWidget).setCurrentIndex (w.currentIndex - 1)
    else ({ w with tabs := tabs1 }, false)
  else (w, false)

/-- Models `QTabWidget::currentWidget`: the page of the current tab, null when there
is none. -/
def currentWidget (w : QTabWidget) : Nat :=
  if w.currentIndex < 0 then 0
  else match w.tabs[w.currentIndex.toNat]? with
    | some t => t.widget
    | none => 0

/-- Models `QTabWidget::setTabText`: no effect for an index out of range. -/
def setTabText (w : QTabWidget) (index : Int) (text : String) : QTabWidget :=
  if w.validIndex index then
    { w with tabs := w.tabs.modify (fun t => { t with text := text }) index.toNat }
  else w

/-- Models `QTabWidget::setTabToolTip`: no effect for an index out of range. -/
def setTabToolTip (w : QTabWidget) (index : Int) (tip : String) : QTabWidget :=
  if w.validIndex index then
    { w with tabs := w.tabs.modify (fun t => { t with toolTip := tip }) index.toNat }
  else w

end QTabWidget

/-- Models `QFileInfo(path).fileName()`: the part of the path after its last `/`. -/
def QFileInfo.fileName (path : String) : String :=
  String.mk (path.data.reverse.takeWhile (fun c => c != '/')).reverse

/-- Models `QList::at`: `none` when the index is out of range. -/
def QList.at (l : List Nat) (index : Int) : Option Nat :=
  if index < 0 then none else l[index.toNat]?

/-- Models `QList::indexOf`: the first position of the value, `-1` when absent. -/
def QList.indexOf (l : List Nat) (value : Nat) : Int :=
  if value ∈ l then (l.indexOf value : Int) else -1

/-! ## The manager -/

/-- One `currentDocument()` call made by `currentIndexChanged`: the current
index it read, the size of the document list at that moment and the pointer it
returned. -/
structure Lookup where
  index : Int
  size : Nat
  result : Nat
  deriving DecidableEq

/-- The state of a `DocumentManager` together with the objects it points at. -/
structure DocumentManager where
  /-- Member `QList<MapDocument*> mDocuments` -/
  mDocuments : List Nat
  /-- Member `QTabWidget *mTabWidget` (owned) -/
  mTabWidget : QTabWidget
  /-- Member `QUndoGroup *mUndoGroup` (owned) -/
  mUndoGroup : QUndoGroup
  /-- Member `AbstractTool *mSelectedTool` -/
  mSelectedTool : Nat
  /-- Member `MapScene *mSceneWithTool` -/
  mSceneWithTool : Nat
  /-- Member `QString mUntitledFileName` -/
  mUntitledFileName : String
  /-- What `MapDocument::fileName()` returns for the document at each address -/
  fileName : Nat → String
  /-- the live `MapView` objects -/
  views : Nat → Option MapView
  /-- the live `MapScene` objects -/
  scenes : Nat → Option MapScene
  /-- the address the next `new` returns -/
  nextAddr : Nat
  /-- every `enableSelectedTool` / `disableSelectedTool` call made so far, with
  the scene it was made on, oldest first -/
  sceneCalls : List (Nat × SceneCall)
  /-- the arguments of the `currentDocumentChanged` signals emitted so far -/
  emitted : List Nat
  /-- the `currentDocument()` calls made by `currentIndexChanged` so far -/
  lookups : List Lookup

namespace DocumentManager

/-- Modelled from the spec: `MapScene::setSelectedTool` (mapscene.cpp is not
among the sources) records the tool on the scene.  The call goes through a
pointer and fails when no live scene is at that address. -/
def sceneSetSelectedTool (scene tool : Nat) (s : DocumentManager) : Option DocumentManager :=
  match s.scenes scene with
  | none => none
  | some sc =>
    some { s with scenes := Function.update s.scenes scene (some { sc with selectedTool := tool }) }

/-- Modelled from the spec: `MapScene::enableSelectedTool` (mapscene.cpp is not
among the sources) marks the tool of the scene as enabled; the call is added to
the log. -/
def sceneEnableSelectedTool (scene : Nat) (s : DocumentManager) : Option DocumentManager :=
  match s.scenes scene with
  | none => none
  | some sc =>
    some { s with
      scenes := Function.update s.scenes scene (some { sc with toolEnabled := true })
      sceneCalls := s.sceneCalls ++ [(scene, SceneCall.enable)] }

/-- Modelled from the spec: `MapScene::disableSelectedTool` (mapscene.cpp is not
among the sources) marks the tool of the scene as not enabled; the call is added
to the log. -/
def sceneDisableSelectedTool (scene : Nat) (s : DocumentManager) : Option DocumentManager :=
  match s.scenes scene with
  | none => none
  | some sc =>
    some { s with
      scenes := Function.update s.scenes scene (some { sc with toolEnabled := false })
      sceneCalls := s.sceneCalls ++ [(scene, SceneCall.disable)] }

/-- Models `QObject::tr`: without an installed translation the source text
itself is returned. -/
def tr (sourceText : String) : String := sourceText

/-- Embeds `DocumentManager::setSelectedTool`. -/
def setSelectedTool (tool : Nat) (s : DocumentManager) : Option DocumentManager :=
  if s.mSelectedTool = tool then some s
  else
    let s1 := { s with mSelectedTool := tool }
    if s1.mSceneWithTool ≠ 0 then
      match sceneDisableSelectedTool s1.mSceneWithTool s1 with
      | none => none
      | some s2 =>
        if s2.mSelectedTool ≠ 0 then
          match sceneSetSelectedTool s2.mSceneWithTool s2.mSelectedTool s2 with
          | none => none
          | some s3 => sceneEnableSelectedTool s3.mSceneWithTool s3
        else some s2
    else some s1

/-- The members right after the initialiser list of the constructor: an empty
tab widget and undo group, no tool, no scene with the tool. -/
def fresh : DocumentManager where
  mDocuments := []
  mTabWidget := { tabs := [], currentIndex := -1 }
  mUndoGroup := { members := [], activeStack := none }
  mSelectedTool := 0
  mSceneWithTool := 0
  mUntitledFileName := tr "untitled.tmx"
  fileName := fun _ => ""
  views := fun _ => none
  scenes := fun _ => none
  nextAddr := 1
  sceneCalls := []
  emitted := []
  lookups := []

/-- Embeds `DocumentManager::DocumentManager`: `toolManagerTool` is what
`ToolManager::instance()->selectedTool()` returns, `fileName` the file names of
the documents that exist outside the manager. -/
def new (toolManagerTool : Nat) (fileName : Nat → String) :
    Option DocumentManager :=
  setSelectedTool toolManagerTool { fresh with fileName := fileName }

/-- Embeds `DocumentManager::~DocumentManager`: the assertion that all documents
were closed. -/
def destroy (s : DocumentManager) : Option Unit :=
  if s.mDocuments.isEmpty then some () else none

/-- Embeds `DocumentManager::currentDocument`. -/
def currentDocument (s : DocumentManager) : Option Nat :=
  let index := s.mTabWidget.currentIndex
  if index = -1 then some 0
  else QList.at s.mDocuments index

/-- Embeds `DocumentManager::currentMapView`. -/
def currentMapView (s : DocumentManager) : Nat :=
  s.mTabWidget.currentWidget

/-- Embeds `DocumentManager::currentMapScene`. -/
def currentMapScene (s : DocumentManager) : Option Nat :=
  let mapView := s.currentMapView
  if mapView ≠ 0 then
    match s.views mapView with
    | none => none
    | some v => some v.scene
  else some 0

/-- Embeds `DocumentManager::currentIndexChanged`, the slot connected to the tab
widget's `currentChanged`.  The `currentDocument()` call is added to `lookups`
and the emitted `currentDocumentChanged` to `emitted`. -/
def currentIndexChanged (s : DocumentManager) : Option DocumentManager :=
  let afterDisable : Option DocumentManager :=
    if s.mSceneWithTool ≠ 0 then
      match sceneDisableSelectedTool s.mSceneWithTool s with
      | none => none
      | some t => some { t with mSceneWithTool := 0 }
    else some s
  match afterDisable with
  | none => none
  | some s1 =>
    match s1.currentDocument with
    | none => none
    | some mapDocument =>
      let s2 := { s1 with
        lookups := s1.lookups ++
          [Lookup.mk s1.mTabWidget.currentIndex s1.mDocuments.length mapDocument]
        mUndoGroup :=
          if mapDocument ≠ 0 then
            s1.mUndoGroup.setActiveStack (MapDocument.undoStack mapDocument)
          else s1.mUndoGroup }
      let s3 := { s2 with emitted := s2.emitted ++ [mapDocument] }
      match s3.currentMapScene with
      | none => none
      | some mapScene =>
        if mapScene ≠ 0 then
          match sceneSetSelectedTool mapScene s3.mSelectedTool s3 with
          | none => none
          | some s4 =>
            match sceneEnableSelectedTool mapScene s4 with
            | none => none
            | some s5 => some { s5 with mSceneWithTool := mapScene }
        else some s3

/-- Stores the tab widget left by one of its calls and, when the call emitted
`currentChanged`, runs the connected slot before the call returns. -/
def afterTabWidgetCall (r : QTabWidget × Bool) (s : DocumentManager) : Option DocumentManager :=
  let s1 := { s with mTabWidget := r.1 }
  if r.2 then s1.currentIndexChanged else some s1

/-- Embeds `DocumentManager::switchToDocument`. -/
def switchToDocument (index : Int) (s : DocumentManager) : Option DocumentManager :=
  afterTabWidgetCall (s.mTabWidget.setCurrentIndex index) s

/-- The tab title of a document: the file name without its path, or the
untitled name when that is empty. -/
def tabTitle (s : DocumentManager) (mapDocument : Nat) : String :=
  let title := QFileInfo.fileName (s.fileName mapDocument)
  if title.isEmpty then s.mUntitledFileName else title

/-- Embeds `DocumentManager::addDocument`.  The two assertions fail with `none`.
The new view and scene get the next two free addresses; the scene starts
without a tool and is given the document by `setMapDocument`.  The slot
connected to the document's `fileNameChanged` is run by `renameDocument`;
`view->centerOn(0, 0)` scrolls the view and has no part in the state. -/
def addDocument (mapDocument : Nat) (s : DocumentManager) : Option DocumentManager :=
  if mapDocument = 0 then none
  else if mapDocument ∈ s.mDocuments then none
  else
    let s1 := { s with
      mDocuments := s.mDocuments ++ [mapDocument]
      mUndoGroup := s.mUndoGroup.addStack (MapDocument.undoStack mapDocument) }
    let view := s1.nextAddr
    let scene := s1.nextAddr + 1
    let s2 := { s1 with
      nextAddr := s1.nextAddr + 2
      views := Function.update s1.views view (some { scene := scene })
      scenes := Function.update s1.scenes scene
        (some { mapDocument := mapDocument, selectedTool := 0, toolEnabled := false }) }
    let title := s2.tabTitle mapDocument
    let documentIndex : Int := (s2.mDocuments.length : Int) - 1
    match afterTabWidgetCall (s2.mTabWidget.addTab view title) s2 with
    | none => none
    | some s3 =>
      let s4 := { s3 with
        mTabWidget := s3.mTabWidget.setTabToolTip documentIndex (s3.fileName mapDocument) }
      s4.switchToDocument documentIndex

/-- The statement `delete mapView`: the view and the scene it owns stop being
live.  Deleting through a dangling pointer fails. -/
def deleteMapView (mapView : Nat) (s : DocumentManager) : Option DocumentManager :=
  if mapView = 0 then some s
  else
    match s.views mapView with
    | none => none
    | some v =>
      some { s with
        views := Function.update s.views mapView none
        scenes := Function.update s.scenes v.scene none }

/-- Modelled from the spec: the statement `delete mapDocument` runs
`MapDocument::~MapDocument` (mapdocument.cpp is not among the sources).  The
undo stack of the document dies with it, and a `QUndoStack` that is destroyed
removes itself from its group. -/
def deleteMapDocument (mapDocument : Nat) (s : DocumentManager) : DocumentManager :=
  { s with mUndoGroup := s.mUndoGroup.removeStack (MapDocument.undoStack mapDocument) }

/-- Embeds `DocumentManager::closeCurrentDocument`.  `takeAt` fails for an index
out of range. -/
def closeCurrentDocument (s : DocumentManager) : Option DocumentManager :=
  let index := s.mTabWidget.currentIndex
  if index = -1 then some s
  else
    match QList.at s.mDocuments index with
    | none => none
    | some mapDocument =>
      let s1 := { s with mDocuments := s.mDocuments.eraseIdx index.toNat }
      let mapView := s1.currentMapView
      match afterTabWidgetCall (s1.mTabWidget.removeTab index) s1 with
      | none => none
      | some s2 =>
        match deleteMapView mapView s2 with
        | none => none
        | some s3 => some (deleteMapDocument mapDocument s3)

/-- Embeds `DocumentManager::closeAllDocuments`: its loop, bounded by `fuel`; the
result carries the number of iterations run. -/
def closeAllDocuments : Nat → DocumentManager → Option (DocumentManager × Nat)
  | 0, s => if s.mDocuments.isEmpty then some (s, 0) else none
  | fuel + 1, s =>
    if s.mDocuments.isEmpty then some (s, 0)
    else
      match s.closeCurrentDocument with
      | none => none
      | some s1 =>
        match closeAllDocuments fuel s1 with
        | none => none
        | some (s2, n) => some (s2, n + 1)

/-- Embeds `DocumentManager::documentFileNameChanged`, the slot connected to
each document's `fileNameChanged`; `sender` is the document that emitted it. -/
def documentFileNameChanged (sender : Nat) (s : DocumentManager) : Option DocumentManager :=
  if sender = 0 then none
  else
    let index := QList.indexOf s.mDocuments sender
    some { s with mTabWidget := s.mTabWidget.setTabText index (s.tabTitle sender) }

/-- A document gets a new file name and emits `fileNameChanged`. -/
def renameDocument (mapDocument : Nat) (name : String) (s : DocumentManager) :
    Option DocumentManager :=
  documentFileNameChanged mapDocument
    { s with fileName := Function.update s.fileName mapDocument name }

/-! ## Reachable states -/

/-- The states the manager can be in between two calls: it is constructed with
the tool the tool manager has selected, and then driven by `addDocument`,
`switchToDocument`, `closeCurrentDocument`, `closeAllDocuments`,
`setSelectedTool` (with a tool that satisfies `toolOk`) and by documents that
are renamed and emit `fileNameChanged`. -/
inductive ReachableBy (toolOk : Nat → Prop) : DocumentManager → Prop
  | construct (tool : Nat) (fileName : Nat → String) (s : DocumentManager) :
      new tool fileName = some s → ReachableBy toolOk s
  | addDocument (mapDocument : Nat) (s s' : DocumentManager) :
      ReachableBy toolOk s → s.addDocument mapDocument = some s' → ReachableBy toolOk s'
  | switchToDocument (index : Int) (s s' : DocumentManager) :
      ReachableBy toolOk s → s.switchToDocument index = some s' → ReachableBy toolOk s'
  | closeCurrentDocument (s s' : DocumentManager) :
      ReachableBy toolOk s → s.closeCurrentDocument = some s' → ReachableBy toolOk s'
  | closeAllDocuments (fuel n : Nat) (s s' : DocumentManager) :
      ReachableBy toolOk s → closeAllDocuments fuel s = some (s', n) →
      ReachableBy toolOk s'
  | setSelectedTool (tool : Nat) (s s' : DocumentManager) :
      ReachableBy toolOk s → toolOk tool → s.setSelectedTool tool = some s' →
      ReachableBy toolOk s'
  | renameDocument (mapDocument : Nat) (name : String) (s s' : DocumentManager) :
      ReachableBy toolOk s → s.renameDocument mapDocument name = some s' →
      ReachableBy toolOk s'

/-- Reachable with `setSelectedTool` called with any tool, null included. -/
def Reachable (s : DocumentManager) : Prop :=
  ReachableBy (fun _ => True) s

/-- Reachable with `setSelectedTool` called with non-null tools only. -/
def ReachableNonNull (s : DocumentManager) : Prop :=
  ReachableBy (fun tool => tool ≠ 0) s

/-! ## Notions used by the invariants -/

/-- The calls made on one scene, oldest first. -/
def callsOn (scene : Nat) (log : List (Nat × SceneCall)) : List SceneCall :=
  (log.filter (fun c => decide (c.1 = scene))).map Prod.snd

/-- A call sequence does not begin with `disable`. -/
def StartsWithEnable (l : List SceneCall) : Prop :=
  l.head? ≠ some SceneCall.disable

/-- No `enable` directly follows an `enable`. -/
def NoRepeatedEnable (l : List SceneCall) : Prop :=
  l.Chain' (fun a b => ¬ (a = SceneCall.enable ∧ b = SceneCall.enable))

/-- No call directly follows a call of the same kind. -/
def Alternates (l : List SceneCall) : Prop :=
  l.Chain' (fun a b => a ≠ b)

/-- The document a live scene shows. -/
def sceneDocument (s : DocumentManager) (scene : Nat) : Option Nat :=
  (s.scenes scene).map (fun sc => sc.mapDocument)

/-- Tab `t` belongs to document `d`: its page is a live view whose scene is live
and shows `d`, and its text is the tab title of `d`. -/
def ShowsDocument (s : DocumentManager) (d : Nat) (t : Tab) : Prop :=
  t.widget ≠ 0 ∧ ∃ v, s.views t.widget = some v ∧ v.scene ≠ 0 ∧
    s.sceneDocument v.scene = some d ∧ t.text = s.tabTitle d

/-- A recorded lookup was in range and returned null only for index `-1`. -/
def LookupInRange (l : Lookup) : Prop :=
  (l.index = -1 ∨ (0 ≤ l.index ∧ l.index < (l.size : Int))) ∧ (l.result = 0 ↔ l.index = -1)

/-- What holds whenever `currentIndexChanged` is entered and between calls. -/
structure Sync (s : DocumentManager) : Prop where
  tabs : List.Forall₂ (ShowsDocument s) s.mDocuments s.mTabWidget.tabs
  nodup : s.mDocuments.Nodup
  nonnull : 0 ∉ s.mDocuments
  index : (s.mTabWidget.currentIndex = -1 ∧ s.mDocuments = []) ∨
    (0 ≤ s.mTabWidget.currentIndex ∧ s.mTabWidget.currentIndex < (s.mDocuments.length : Int))
  fresh : ∀ p, s.nextAddr ≤ p → s.views p = none ∧ s.scenes p = none
  nextPos : 0 < s.nextAddr
  null : s.views 0 = none ∧ s.scenes 0 = none
  held : s.mSceneWithTool ≠ 0 → (s.scenes s.mSceneWithTool).isSome
  enabled : ∀ p sc, s.scenes p = some sc → sc.toolEnabled = true → p = s.mSceneWithTool
  undo : ∀ d ∈ s.mDocuments, MapDocument.undoStack d ∈ s.mUndoGroup.members
  untitled : s.mUntitledFileName = tr "untitled.tmx"
  logHead : ∀ p, StartsWithEnable (callsOn p s.sceneCalls)
  logPair : ∀ p, NoRepeatedEnable (callsOn p s.sceneCalls)
  logLast : ∀ p, (callsOn p s.sceneCalls).getLast? = some SceneCall.enable →
    p = s.mSceneWithTool ∧ p ≠ 0
  logHeld : s.mSceneWithTool ≠ 0 → callsOn s.mSceneWithTool s.sceneCalls ≠ []
  lookups : ∀ l ∈ s.lookups, LookupInRange l

/-- What holds between calls. -/
structure Inv (s : DocumentManager) extends Sync s : Prop where
  current : s.currentMapScene = some s.mSceneWithTool
  active : ∀ d, s.currentDocument = some d → d ≠ 0 →
    s.mUndoGroup.activeStack = some (MapDocument.undoStack d)
  toolSet : s.mSceneWithTool ≠ 0 → s.mSelectedTool ≠ 0 →
    ∃ sc, s.scenes s.mSceneWithTool = some sc ∧ sc.selectedTool = s.mSelectedTool ∧
      sc.toolEnabled = true

/-- What holds in addition while `setSelectedTool` is never called with null. -/
structure Strict (s : DocumentManager) : Prop where
  alternates : ∀ p, Alternates (callsOn p s.sceneCalls)
  lastEnable : s.mSceneWithTool ≠ 0 →
    (callsOn s.mSceneWithTool s.sceneCalls).getLast? = some SceneCall.enable
  toolSet : s.mSceneWithTool ≠ 0 →
    ∃ sc, s.scenes s.mSceneWithTool = some sc ∧ sc.selectedTool = s.mSelectedTool

/-- The undo group holds exactly the stacks of the open documents, in their
order, and has no active stack when no document is open. -/
structure UndoExact (s : DocumentManager) : Prop where
  members : s.mUndoGroup.members = s.mDocuments.map MapDocument.undoStack
  idle : s.mDocuments = [] → s.mUndoGroup.activeStack = none

/-- What `currentIndexChanged` leaves when the current document is `d` (null for
none) and the scene of the current view is `scene` (null for none). -/
def slotResult (s : DocumentManager) (d scene : Nat) : DocumentManager :=
  { s with
    mSceneWithTool := scene
    mUndoGroup :=
      if d ≠ 0 then s.mUndoGroup.setActiveStack (MapDocument.undoStack d) else s.mUndoGroup
    emitted := s.emitted ++ [d]
    lookups := s.lookups ++
      [Lookup.mk s.mTabWidget.currentIndex s.mDocuments.length d]
    scenes := fun p =>
      if p = scene ∧ scene ≠ 0 then
        (s.scenes p).map (fun sc => { sc with selectedTool := s.mSelectedTool, toolEnabled := true })
      else if p = s.mSceneWithTool ∧ s.mSceneWithTool ≠ 0 then
        (s.scenes p).map (fun sc => { sc with toolEnabled := false })
      else s.scenes p
    sceneCalls :=
      s.sceneCalls ++ (if s.mSceneWithTool ≠ 0 then [(s.mSceneWithTool, SceneCall.disable)] else [])
        ++ (if scene ≠ 0 then [(scene, SceneCall.enable)] else []) }

/-! ## States used in the proofs -/

/-- The facts about the current document `d` and the current scene `scene`. -/
structure CurrentIs (s : DocumentManager) (d scene : Nat) : Prop where
  docEq : s.currentDocument = some d
  sceneEq : s.currentMapScene = some scene
  docNull : d = 0 ↔ s.mTabWidget.currentIndex = -1
  sceneNull : scene = 0 ↔ s.mTabWidget.currentIndex = -1
  docAt : d ≠ 0 → s.mDocuments[s.mTabWidget.currentIndex.toNat]? = some d
  shows : scene ≠ 0 → s.sceneDocument scene = some d
  view : scene ≠ 0 → ∃ t, s.mTabWidget.tabs[s.mTabWidget.currentIndex.toNat]? = some t ∧
    s.currentMapView = t.widget ∧ t.widget ≠ 0 ∧ s.views t.widget = some ⟨scene⟩

/-- The state in which the slot is entered when the current index moves to
`index`. -/
def withCurrentIndex (s : DocumentManager) (index : Int) : DocumentManager :=
  { s with mTabWidget := { s.mTabWidget with currentIndex := index } }

/-- The state in which the slot is entered for the tab of a new document: the
document, its view, scene and tab are in place and its tab is current. -/
def addedState (s : DocumentManager) (d : Nat) : DocumentManager :=
  { s with
    mDocuments := s.mDocuments ++ [d]
    mUndoGroup := s.mUndoGroup.addStack (MapDocument.undoStack d)
    nextAddr := s.nextAddr + 2
    views := Function.update s.views s.nextAddr (some { scene := s.nextAddr + 1 })
    scenes := Function.update s.scenes (s.nextAddr + 1)
      (some { mapDocument := d, selectedTool := 0, toolEnabled := false })
    mTabWidget :=
      { tabs := s.mTabWidget.tabs ++ [⟨s.nextAddr, s.tabTitle d, s.fileName d⟩]
        currentIndex := s.mDocuments.length } }

/-- The state in which the slot is entered while the current tab is removed:
the document is taken from the list, the tab is gone, the view is still live. -/
def closingState (s : DocumentManager) : DocumentManager :=
  { s with
    mDocuments := s.mDocuments.eraseIdx s.mTabWidget.currentIndex.toNat
    mTabWidget := (s.mTabWidget.removeTab s.mTabWidget.currentIndex).1 }

/-- The state after `delete mapView` for the view at `view` showing `scene`. -/
def deletedState (s : DocumentManager) (view scene : Nat) : DocumentManager :=
  { s with
    views := Function.update s.views view none
    scenes := Function.update s.scenes scene none }

/-- What `setSelectedTool` leaves when a scene holds the tool and `tool` is not
the selected one. -/
def toolChangedState (s : DocumentManager) (tool : Nat) : DocumentManager :=
  { s with
    mSelectedTool := tool
    scenes := fun p =>
      if p = s.mSceneWithTool then
        (s.scenes p).map (fun sc =>
          if tool ≠ 0 then { sc with selectedTool := tool, toolEnabled := true }
          else { sc with toolEnabled := false })
      else s.scenes p
    sceneCalls :=
      s.sceneCalls ++ [(s.mSceneWithTool, SceneCall.disable)]
        ++ (if tool ≠ 0 then [(s.mSceneWithTool, SceneCall.enable)] else []) }

/-- The state after the document at `d` was renamed and its signal handled. -/
def renamedState (s : DocumentManager) (d : Nat) (name : String) : DocumentManager :=
  { s with
    fileName := Function.update s.fileName d name
    mTabWidget :=
      s.mTabWidget.setTabText (QList.indexOf s.mDocuments d)
        (tabTitle { s with fileName := Function.update s.fileName d name } d) }

/-- A manager constructed while tool `5` is selected. -/
def demoStart : DocumentManager :=
  { fresh with fileName := fun _ => "", mSelectedTool := 5 }

/-- The state `demoStart` after `addDocument(7)`. -/
def demoOne : DocumentManager :=
  slotResult (addedState demoStart 7) 7 (demoStart.nextAddr + 1)

/-- The state `demoOne` after `addDocument(8)`. -/
def demoPair : DocumentManager :=
  slotResult (addedState demoOne 8) 8 (demoOne.nextAddr + 1)

/-- The state `demoPair` after `setSelectedTool(6)`. -/
def demoRetooled : DocumentManager := toolChangedState demoPair 6

/-- The state `demoOne` after document `7` was renamed to `/maps/level1.tmx`
and emitted `fileNameChanged`. -/
def demoRenamed : DocumentManager := renamedState demoOne 7 "/maps/level1.tmx"

/-- The conclusions of C5 about one change of the current tab from `s` to
`s'`. -/
def ToolMoved (s s' : DocumentManager) : Prop :=
  (s.mSceneWithTool ≠ 0 →
    (callsOn s.mSceneWithTool s'.sceneCalls).getLast? = some SceneCall.disable ∧
    ∀ sc, s'.scenes s.mSceneWithTool = some sc → sc.toolEnabled = false) ∧
  (s'.mSceneWithTool ≠ 0 →
    ∃ sc, s'.scenes s'.mSceneWithTool = some sc ∧ sc.selectedTool = s'.mSelectedTool ∧
      sc.toolEnabled = true) ∧
  s'.currentMapScene = some s'.mSceneWithTool ∧
  (s'.mTabWidget.tabs = [] → s'.mSceneWithTool = 0)

/-- The state `demoOne` after `setSelectedTool(0)`. -/
def demoNullTool : DocumentManager := toolChangedState demoOne 0

/-- The state `demoNullTool` after `addDocument(8)`. -/
def demoTwo : DocumentManager :=
  slotResult (addedState demoNullTool 8) 8 (demoNullTool.nextAddr + 1)

/-! ## The slot in closed form -/

theorem currentIndexChanged_eq (s : DocumentManager) (d scene : Nat)
    (hold : s.mSceneWithTool ≠ 0 → (s.scenes s.mSceneWithTool).isSome)
    (hd : s.currentDocument = some d)
    (hsc : s.currentMapScene = some scene)
    (hlive : scene ≠ 0 → (s.scenes scene).isSome) :
    s.currentIndexChanged = some (slotResult s d scene) := by
  simp only [currentDocument, currentMapScene, currentMapView] at hd hsc
  by_cases h0 : s.mSceneWithTool = 0
  · by_cases h1 : scene = 0
    · subst h1
      simp only [currentIndexChanged, currentDocument, currentMapScene, currentMapView, h0, ne_eq,
        not_true_eq_false, if_false, hd, hsc]
      simp [slotResult, h0]
    · obtain ⟨sc, hsc1⟩ := Option.isSome_iff_exists.mp (hlive h1)
      simp only [currentIndexChanged, currentDocument, currentMapScene, currentMapView, h0, ne_eq,
        not_true_eq_false, if_false, hd, hsc, h1, not_false_eq_true, if_true,
        sceneSetSelectedTool, sceneEnableSelectedTool, hsc1, Function.update_same]
      simp only [slotResult, h0, h1, ne_eq, not_true_eq_false, not_false_eq_true, if_true, if_false,
        and_true, and_false, List.append_nil, Function.update_idem]
      congr 2
      funext p
      by_cases hp : p = scene
      · subst hp; simp [hsc1]
      · simp [hp, Function.update_noteq hp]
  · obtain ⟨so, hso⟩ := Option.isSome_iff_exists.mp (hold h0)
    by_cases h1 : scene = 0
    · subst h1
      simp only [currentIndexChanged, currentDocument, currentMapScene, currentMapView, h0, ne_eq,
        not_true_eq_false, if_false, hd, hsc, not_false_eq_true, if_true,
        sceneDisableSelectedTool, hso]
      simp only [slotResult, h0, ne_eq, not_true_eq_false, not_false_eq_true, if_true, if_false,
        and_true, and_false, List.append_nil]
      congr 2
      funext p
      by_cases hp : p = s.mSceneWithTool
      · subst hp; simp [hso]
      · simp [hp, Function.update_noteq hp]
    · obtain ⟨sc, hsc1⟩ := Option.isSome_iff_exists.mp (hlive h1)
      by_cases h2 : scene = s.mSceneWithTool
      · subst h2
        simp only [currentIndexChanged, currentDocument, currentMapScene, currentMapView, ne_eq,
          not_true_eq_false, if_false, hd, hsc, h1, not_false_eq_true, if_true,
          sceneDisableSelectedTool, sceneSetSelectedTool, sceneEnableSelectedTool, hsc1,
          Function.update_same, Function.update_idem]
        simp only [slotResult, h1, ne_eq, not_true_eq_false, not_false_eq_true, if_true, if_false,
          and_true, and_false, List.append_nil]
        congr 2
        · funext p
          by_cases hp : p = s.mSceneWithTool
          · subst hp; simp [hsc1]
          · simp [hp, Function.update_noteq hp]
      · simp only [currentIndexChanged, currentDocument, currentMapScene, currentMapView, ne_eq,
          not_true_eq_false, if_false, hd, hsc, h0, h1, not_false_eq_true, if_true,
          sceneDisableSelectedTool, sceneSetSelectedTool, sceneEnableSelectedTool, hso,
          Function.update_same, Function.update_idem, Function.update_noteq h2, hsc1]
        simp only [slotResult, h0, h1, ne_eq, not_true_eq_false, not_false_eq_true, if_true, if_false,
          and_true, and_false, List.append_nil]
        congr 2
        · funext p
          by_cases hp : p = scene
          · subst hp; simp [hsc1, h2]
          · by_cases hq : p = s.mSceneWithTool
            · subst hq; simp [hso, hp]
            · simp [hp, hq, Function.update_noteq hp, Function.update_noteq hq]

/-! ## Lists -/

theorem forall₂_getElem? {α β : Type} {R : α → β → Prop} {l1 : List α} {l2 : List β}
    (h : List.Forall₂ R l1 l2) (i : Nat) (a : α) (ha : l1[i]? = some a) :
    ∃ b, l2[i]? = some b ∧ R a b := by
  induction h generalizing i with
  | nil => simp at ha
  | cons hab _ ih =>
    cases i with
    | zero => simp at ha; subst ha; exact ⟨_, by simp, hab⟩
    | succ n => simp at ha; simpa using ih n ha

theorem forall₂_eraseIdx {α β : Type} {R : α → β → Prop} {l1 : List α} {l2 : List β}
    (h : List.Forall₂ R l1 l2) (i : Nat) :
    List.Forall₂ R (l1.eraseIdx i) (l2.eraseIdx i) := by
  induction h generalizing i with
  | nil => simp
  | cons hab hrest ih =>
    cases i with
    | zero => simpa using hrest
    | succ n => simpa using List.Forall₂.cons hab (ih n)

theorem forall₂_imp_mem {α β : Type} {R S : α → β → Prop} {l1 : List α} {l2 : List β}
    (h : List.Forall₂ R l1 l2) (himp : ∀ a b, a ∈ l1 → R a b → S a b) :
    List.Forall₂ S l1 l2 := by
  induction h with
  | nil => exact List.Forall₂.nil
  | cons hab _ ih =>
    exact List.Forall₂.cons (himp _ _ (by simp) hab)
      (ih (fun a b ha hr => himp a b (List.mem_cons_of_mem _ ha) hr))

theorem forall₂_snoc {α β : Type} {R : α → β → Prop} {l1 : List α} {l2 : List β} {a : α} {b : β}
    (h : List.Forall₂ R l1 l2) (hab : R a b) :
    List.Forall₂ R (l1 ++ [a]) (l2 ++ [b]) := by
  induction h with
  | nil => exact List.Forall₂.cons hab List.Forall₂.nil
  | cons h1 _ ih => exact List.Forall₂.cons h1 ih

theorem callsOn_append (p : Nat) (l1 l2 : List (Nat × SceneCall)) :
    callsOn p (l1 ++ l2) = callsOn p l1 ++ callsOn p l2 := by
  simp [callsOn]

theorem callsOn_single (p q : Nat) (c : SceneCall) :
    callsOn p [(q, c)] = if q = p then [c] else [] := by
  by_cases h : q = p <;> simp [callsOn, h]

theorem callsOn_nil (p : Nat) : callsOn p [] = [] := rfl

theorem startsWithEnable_append_enable {l : List SceneCall} (h : StartsWithEnable l) :
    StartsWithEnable (l ++ [SceneCall.enable]) := by
  cases l with
  | nil => simp [StartsWithEnable]
  | cons a l => simpa [StartsWithEnable] using h

theorem startsWithEnable_append_disable {l : List SceneCall} (h : StartsWithEnable l)
    (hne : l ≠ []) : StartsWithEnable (l ++ [SceneCall.disable]) := by
  cases l with
  | nil => exact absurd rfl hne
  | cons a l => simpa [StartsWithEnable] using h

theorem noRepeatedEnable_append_disable {l : List SceneCall} (h : NoRepeatedEnable l) :
    NoRepeatedEnable (l ++ [SceneCall.disable]) := by
  unfold NoRepeatedEnable at *
  rw [List.chain'_append]
  refine ⟨h, by simp, ?_⟩
  intro x _ y hy
  simp at hy
  subst hy
  simp

theorem noRepeatedEnable_append_enable {l : List SceneCall} (h : NoRepeatedEnable l)
    (hlast : l.getLast? ≠ some SceneCall.enable) :
    NoRepeatedEnable (l ++ [SceneCall.enable]) := by
  unfold NoRepeatedEnable at *
  rw [List.chain'_append]
  refine ⟨h, by simp, ?_⟩
  intro x hx y _
  intro hxy
  apply hlast
  rw [← hxy.1]
  simpa using hx

theorem alternates_append {l : List SceneCall} {c : SceneCall} (h : Alternates l)
    (hlast : l.getLast? ≠ some c) : Alternates (l ++ [c]) := by
  unfold Alternates at *
  rw [List.chain'_append]
  refine ⟨h, by simp, ?_⟩
  intro x hx y hy
  simp at hy
  subst hy
  intro hxy
  apply hlast
  rw [← hxy]
  simpa using hx

/-! ## The current tab of a synchronised state -/

theorem Sync.currentIs {s : DocumentManager} (h : Sync s) :
    ∃ d scene, CurrentIs s d scene := by
  rcases h.index with ⟨hi, hd⟩ | ⟨h0, hlt⟩
  · refine ⟨0, 0, ?_⟩
    have htabs : s.mTabWidget.tabs = [] := by
      have := h.tabs.length_eq
      rw [hd] at this
      exact List.length_eq_zero.mp this.symm
    constructor
    · simp [currentDocument, hi]
    · simp [currentMapScene, currentMapView, QTabWidget.currentWidget, hi]
    · simp [hi]
    · simp [hi]
    · simp
    · simp
    · simp
  · have hne : s.mTabWidget.currentIndex ≠ -1 := by omega
    have hlt2 : s.mTabWidget.currentIndex.toNat < s.mDocuments.length := by omega
    obtain ⟨t, ht, hw, v, hv, hvs, hsd, _⟩ :=
      forall₂_getElem? h.tabs _ _ (List.getElem?_eq_getElem hlt2)
    have hdne : s.mDocuments[s.mTabWidget.currentIndex.toNat] ≠ 0 := by
      intro h0
      exact h.nonnull (h0 ▸ List.getElem_mem _)
    refine ⟨s.mDocuments[s.mTabWidget.currentIndex.toNat], v.scene, ?_⟩
    have hnl : ¬ s.mTabWidget.currentIndex < 0 := by omega
    constructor
    · simp [currentDocument, hne, QList.at, hnl, List.getElem?_eq_getElem hlt2]
    · simp [currentMapScene, currentMapView, QTabWidget.currentWidget, hnl, ht, hw, hv]
    · simp [hne, hdne]
    · simp [hne, hvs]
    · intro _; exact List.getElem?_eq_getElem hlt2
    · intro _; exact hsd
    · intro _
      exact ⟨t, ht, by simp [currentMapView, QTabWidget.currentWidget, hnl, ht], hw, hv⟩

theorem ShowsDocument.transfer {s s' : DocumentManager} {d : Nat} {t : Tab}
    (h : ShowsDocument s d t) (hv : s'.views t.widget = s.views t.widget)
    (hsd : ∀ v, s.views t.widget = some v → s'.sceneDocument v.scene = s.sceneDocument v.scene)
    (ht : s'.tabTitle d = s.tabTitle d) : ShowsDocument s' d t := by
  obtain ⟨hw, v, hview, hvs, hdoc, htext⟩ := h
  exact ⟨hw, v, by rw [hv, hview], hvs, by rw [hsd v hview, hdoc], by rw [ht, htext]⟩

theorem slotResult_sceneDocument (s : DocumentManager) (d scene p : Nat) :
    (slotResult s d scene).sceneDocument p = s.sceneDocument p := by
  simp only [sceneDocument, slotResult]
  split_ifs <;> cases s.scenes p <;> simp

theorem slotResult_callsOn (s : DocumentManager) (d scene p : Nat) :
    callsOn p (slotResult s d scene).sceneCalls =
      callsOn p s.sceneCalls
        ++ (if s.mSceneWithTool ≠ 0 ∧ s.mSceneWithTool = p then [SceneCall.disable] else [])
        ++ (if scene ≠ 0 ∧ scene = p then [SceneCall.enable] else []) := by
  simp only [slotResult, callsOn_append]
  congr 1
  · congr 1
    by_cases h : s.mSceneWithTool = 0
    · simp [h, callsOn_nil]
    · by_cases h2 : s.mSceneWithTool = p
      · rw [if_pos h, if_pos ⟨h, h2⟩, callsOn_single, if_pos h2]
      · rw [if_pos h, if_neg (fun hh => h2 hh.2), callsOn_single, if_neg h2]
  · by_cases h : scene = 0
    · simp [h, callsOn_nil]
    · by_cases h2 : scene = p
      · rw [if_pos h, if_pos ⟨h, h2⟩, callsOn_single, if_pos h2]
      · rw [if_pos h, if_neg (fun hh => h2 hh.2), callsOn_single, if_neg h2]

theorem slotResult_sync {s : DocumentManager} {d scene : Nat}
    (h : Sync s) (hc : CurrentIs s d scene) : Sync (slotResult s d scene) := by
  have hlive : scene ≠ 0 → ∃ sc, s.scenes scene = some sc := by
    intro hs
    have := hc.shows hs
    simp only [sceneDocument, Option.map_eq_some'] at this
    obtain ⟨sc, hsc, _⟩ := this
    exact ⟨sc, hsc⟩
  constructor
  · exact forall₂_imp_mem h.tabs (fun a b _ hab =>
      hab.transfer rfl (fun v _ => slotResult_sceneDocument s d scene v.scene) rfl)
  · exact h.nodup
  · exact h.nonnull
  · exact h.index
  · intro p hp
    have := h.fresh p hp
    refine ⟨this.1, ?_⟩
    simp only [slotResult]
    split_ifs <;> simp [this.2]
  · exact h.nextPos
  · refine ⟨h.null.1, ?_⟩
    simp only [slotResult]
    split_ifs <;> simp [h.null.2]
  · intro hs
    simp only [slotResult] at hs ⊢
    obtain ⟨sc, hsc⟩ := hlive hs
    simp [hs, hsc]
  · intro p sc hp he
    simp only [slotResult] at hp ⊢
    by_cases h1 : p = scene ∧ scene ≠ 0
    · exact h1.1
    · rw [if_neg h1] at hp
      by_cases h2 : p = s.mSceneWithTool ∧ s.mSceneWithTool ≠ 0
      · rw [if_pos h2] at hp
        simp only [Option.map_eq_some'] at hp
        obtain ⟨a, _, ha⟩ := hp
        rw [← ha] at he
        simp at he
      · rw [if_neg h2] at hp
        have hps := h.enabled p sc hp he
        have hp0 : p = 0 := by
          by_contra hne
          exact h2 ⟨hps, hps ▸ hne⟩
        rw [hp0, h.null.2] at hp
        simp at hp
  · intro a ha
    have := h.undo a ha
    simp only [slotResult]
    split_ifs
    · unfold QUndoGroup.setActiveStack
      split_ifs <;> simpa using this
    · exact this
  · exact h.untitled
  · intro p
    rw [slotResult_callsOn]
    by_cases h1 : s.mSceneWithTool ≠ 0 ∧ s.mSceneWithTool = p
    · have hne : callsOn p s.sceneCalls ≠ [] := h1.2 ▸ h.logHeld h1.1
      rw [if_pos h1]
      split_ifs
      · exact startsWithEnable_append_enable (startsWithEnable_append_disable (h.logHead p) hne)
      · simpa using startsWithEnable_append_disable (h.logHead p) hne
    · rw [if_neg h1]
      split_ifs
      · simpa using startsWithEnable_append_enable (h.logHead p)
      · simpa using h.logHead p
  · intro p
    rw [slotResult_callsOn]
    by_cases h1 : s.mSceneWithTool ≠ 0 ∧ s.mSceneWithTool = p
    · rw [if_pos h1]
      split_ifs
      · exact noRepeatedEnable_append_enable (noRepeatedEnable_append_disable (h.logPair p))
          (by simp)
      · simpa using noRepeatedEnable_append_disable (h.logPair p)
    · rw [if_neg h1]
      split_ifs with h2
      · have hl : (callsOn p s.sceneCalls).getLast? ≠ some SceneCall.enable := by
          intro hl
          have hps := h.logLast p hl
          exact h1 ⟨hps.1 ▸ hps.2, hps.1.symm⟩
        simpa using noRepeatedEnable_append_enable (h.logPair p) hl
      · simpa using h.logPair p
  · intro p
    rw [slotResult_callsOn]
    by_cases h2 : scene ≠ 0 ∧ scene = p
    · intro _; exact ⟨h2.2.symm, h2.2 ▸ h2.1⟩
    · rw [if_neg h2]
      by_cases h1 : s.mSceneWithTool ≠ 0 ∧ s.mSceneWithTool = p
      · rw [if_pos h1]; simp
      · rw [if_neg h1]
        simp only [List.append_nil]
        intro hl
        have hps := h.logLast p hl
        exact absurd ⟨hps.1 ▸ hps.2, hps.1.symm⟩ h1
  · intro hs
    have hs2 : scene ≠ 0 := hs
    rw [slotResult_callsOn]
    have : (scene ≠ 0 ∧ scene = (slotResult s d scene).mSceneWithTool) := ⟨hs2, rfl⟩
    rw [if_pos this]
    simp
  · intro l hl
    simp only [slotResult, List.mem_append, List.mem_singleton] at hl
    rcases hl with hl | hl
    · exact h.lookups l hl
    · subst hl
      refine ⟨?_, by simpa using hc.docNull⟩
      rcases h.index with hi | hi
      · exact Or.inl hi.1
      · exact Or.inr hi

theorem slotResult_toolSet {s : DocumentManager} {d scene : Nat}
    (hc : CurrentIs s d scene) (hs : scene ≠ 0) :
    ∃ sc, (slotResult s d scene).scenes scene = some sc ∧
      sc.selectedTool = s.mSelectedTool ∧ sc.toolEnabled = true := by
  have := hc.shows hs
  simp only [sceneDocument, Option.map_eq_some'] at this
  obtain ⟨sc, hsc, _⟩ := this
  exact ⟨{ sc with selectedTool := s.mSelectedTool, toolEnabled := true },
    by simp [slotResult, hs, hsc], rfl, rfl⟩

theorem slotResult_inv {s : DocumentManager} {d scene : Nat}
    (h : Sync s) (hc : CurrentIs s d scene) : Inv (slotResult s d scene) := by
  refine ⟨slotResult_sync h hc, ?_, ?_, ?_⟩
  · have := hc.sceneEq
    simpa [currentMapScene, currentMapView, slotResult] using this
  · intro a ha hane
    have hd : s.currentDocument = some a := by
      simpa [currentDocument, slotResult] using ha
    have had : a = d := by
      rw [hc.docEq] at hd
      exact (Option.some.inj hd).symm
    subst had
    have hmem : a ∈ s.mDocuments := List.getElem?_mem (hc.docAt hane)
    have := h.undo a hmem
    simp [slotResult, hane, QUndoGroup.setActiveStack, this]
  · intro hs _
    exact slotResult_toolSet hc hs

theorem slotResult_strict {s : DocumentManager} {d scene : Nat}
    (h : Sync s) (hc : CurrentIs s d scene)
    (halt : ∀ p, Alternates (callsOn p s.sceneCalls))
    (hlast : s.mSceneWithTool ≠ 0 →
      (callsOn s.mSceneWithTool s.sceneCalls).getLast? = some SceneCall.enable) :
    Strict (slotResult s d scene) := by
  refine ⟨?_, ?_, ?_⟩
  · intro p
    rw [slotResult_callsOn]
    by_cases h1 : s.mSceneWithTool ≠ 0 ∧ s.mSceneWithTool = p
    · rw [if_pos h1]
      have hl : (callsOn p s.sceneCalls).getLast? ≠ some SceneCall.disable := by
        rw [← h1.2, hlast h1.1]; simp
      split_ifs
      · exact alternates_append (alternates_append (halt p) hl) (by simp)
      · simpa using alternates_append (halt p) hl
    · rw [if_neg h1]
      split_ifs with h2
      · have hl : (callsOn p s.sceneCalls).getLast? ≠ some SceneCall.enable := by
          intro hl
          have hps := h.logLast p hl
          exact h1 ⟨hps.1 ▸ hps.2, hps.1.symm⟩
        simpa using alternates_append (halt p) hl
      · simpa using halt p
  · intro hs
    have hs2 : scene ≠ 0 := hs
    rw [slotResult_callsOn]
    have : (scene ≠ 0 ∧ scene = (slotResult s d scene).mSceneWithTool) := ⟨hs2, rfl⟩
    rw [if_pos this]
    simp
  · intro hs
    obtain ⟨sc, h1, h2, _⟩ := slotResult_toolSet hc hs
    exact ⟨sc, h1, h2⟩

theorem currentIndexChanged_sync {s : DocumentManager} {d scene : Nat}
    (h : Sync s) (hc : CurrentIs s d scene) :
    s.currentIndexChanged = some (slotResult s d scene) := by
  apply currentIndexChanged_eq s d scene h.held hc.docEq hc.sceneEq
  intro hs
  have := hc.shows hs
  simp only [sceneDocument, Option.map_eq_some'] at this
  obtain ⟨sc, hsc, _⟩ := this
  simp [hsc]

/-! ## `switchToDocument` -/

theorem withCurrentIndex_sync {s : DocumentManager} (h : Sync s)
    (index : Int) (hv : s.mTabWidget.validIndex index = true) :
    Sync (withCurrentIndex s index) := by
  have hlen := h.tabs.length_eq
  simp only [QTabWidget.validIndex, Bool.and_eq_true, decide_eq_true_eq] at hv
  constructor
  · exact forall₂_imp_mem h.tabs (fun a b _ hab => hab.transfer rfl (fun _ _ => rfl) rfl)
  · exact h.nodup
  · exact h.nonnull
  · right
    simp only [withCurrentIndex]
    omega
  · exact h.fresh
  · exact h.nextPos
  · exact h.null
  · exact h.held
  · exact h.enabled
  · exact h.undo
  · exact h.untitled
  · exact h.logHead
  · exact h.logPair
  · exact h.logLast
  · exact h.logHeld
  · exact h.lookups

theorem switchToDocument_changed {s : DocumentManager} (h : Sync s)
    (index : Int) (hv : s.mTabWidget.validIndex index = true)
    (hne : s.mTabWidget.currentIndex ≠ index) :
    ∃ d scene, CurrentIs (withCurrentIndex s index) d scene ∧
      s.switchToDocument index = some (slotResult (withCurrentIndex s index) d scene) := by
  have hs := withCurrentIndex_sync h index hv
  obtain ⟨d, scene, hc⟩ := hs.currentIs
  refine ⟨d, scene, hc, ?_⟩
  rw [← currentIndexChanged_sync hs hc]
  simp [switchToDocument, afterTabWidgetCall, QTabWidget.setCurrentIndex, hv, hne, withCurrentIndex]

theorem switchToDocument_same {s : DocumentManager} (index : Int)
    (h : ¬ (s.mTabWidget.validIndex index = true ∧ s.mTabWidget.currentIndex ≠ index)) :
    s.switchToDocument index = some s := by
  have h2 : ¬ (s.mTabWidget.validIndex index = true ∧ ¬ s.mTabWidget.currentIndex = index) := h
  simp [switchToDocument, afterTabWidgetCall, QTabWidget.setCurrentIndex, h2]

theorem switchToDocument_inv {s s' : DocumentManager} (h : Inv s)
    (index : Int) (hs : s.switchToDocument index = some s') : Inv s' := by
  by_cases hc : s.mTabWidget.validIndex index = true ∧ s.mTabWidget.currentIndex ≠ index
  · obtain ⟨d, scene, hcur, heq⟩ := switchToDocument_changed h.toSync index hc.1 hc.2
    rw [heq] at hs
    cases hs
    exact slotResult_inv (withCurrentIndex_sync h.toSync index hc.1) hcur
  · rw [switchToDocument_same index hc] at hs
    cases hs
    exact h

/-! ## `addDocument` -/

theorem modify_length_append {α : Type} (f : α → α) (l : List α) (a : α) :
    (l ++ [a]).modify f l.length = l ++ [f a] := by
  induction l with
  | nil => rfl
  | cons x xs ih => simp [ih]

theorem Sync.live_lt {s : DocumentManager} (h : Sync s) (p : Nat) :
    (s.views p ≠ none → p < s.nextAddr) ∧ (s.scenes p ≠ none → p < s.nextAddr) := by
  constructor
  · intro hp
    by_contra hlt
    exact hp (h.fresh p (by omega)).1
  · intro hp
    by_contra hlt
    exact hp (h.fresh p (by omega)).2

theorem addedState_shows {s : DocumentManager} (h : Sync s) (d : Nat)
    {a : Nat} {t : Tab} (hab : ShowsDocument s a t) : ShowsDocument (addedState s d) a t := by
  obtain ⟨hw, v, hview, hvs, hdoc, htext⟩ := hab
  have h1 : t.widget ≠ s.nextAddr := by
    have := (h.live_lt t.widget).1 (by simp [hview])
    omega
  have h2 : v.scene ≠ s.nextAddr + 1 := by
    have hlive : s.scenes v.scene ≠ none := by
      intro hn
      simp [sceneDocument, hn] at hdoc
    have := (h.live_lt v.scene).2 hlive
    omega
  refine ⟨hw, v, ?_, hvs, ?_, htext⟩
  · simp [addedState, Function.update_noteq h1, hview]
  · simpa [addedState, sceneDocument, Function.update_noteq h2] using hdoc

theorem addedState_sync {s : DocumentManager} (h : Sync s) (d : Nat)
    (hd0 : d ≠ 0) (hd : d ∉ s.mDocuments) : Sync (addedState s d) := by
  have hpos := h.nextPos
  constructor
  · refine forall₂_snoc (forall₂_imp_mem h.tabs (fun a b _ hab => addedState_shows h d hab)) ?_
    refine ⟨by simp; omega, ⟨s.nextAddr + 1⟩, ?_, by simp, ?_, rfl⟩
    · simp [addedState]
    · simp [addedState, sceneDocument]
  · simp only [addedState]
    rw [List.nodup_append]
    refine ⟨h.nodup, by simp, ?_⟩
    intro a ha hb
    simp at hb
    subst hb
    exact hd ha
  · simp only [addedState, List.mem_append, List.mem_singleton, not_or]
    exact ⟨h.nonnull, fun h0 => hd0 h0.symm⟩
  · right
    simp only [addedState, List.length_append, List.length_singleton]
    omega
  · intro p hp
    simp only [addedState] at hp ⊢
    have := h.fresh p (by omega)
    rw [Function.update_noteq (by omega), Function.update_noteq (by omega)]
    exact this
  · simp only [addedState]; omega
  · simp only [addedState]
    rw [Function.update_noteq (by omega), Function.update_noteq (by omega)]
    exact h.null
  · intro hs
    have hlive := h.held hs
    have hlt := (h.live_lt s.mSceneWithTool).2 (by
      intro hn; rw [hn] at hlive; simp at hlive)
    simp only [addedState]
    rw [Function.update_noteq (by omega)]
    exact hlive
  · intro p sc hp he
    simp only [addedState] at hp ⊢
    by_cases hpn : p = s.nextAddr + 1
    · subst hpn
      simp at hp
      rw [← hp] at he
      simp at he
    · rw [Function.update_noteq hpn] at hp
      exact h.enabled p sc hp he
  · intro a ha
    simp only [addedState, List.mem_append, List.mem_singleton] at ha ⊢
    unfold QUndoGroup.addStack
    rcases ha with ha | ha
    · have := h.undo a ha
      split_ifs
      · exact this
      · simp [this]
    · subst ha
      split_ifs with hm
      · exact hm
      · simp
  · exact h.untitled
  · exact h.logHead
  · exact h.logPair
  · exact h.logLast
  · exact h.logHeld
  · exact h.lookups

theorem addedState_currentIs {s : DocumentManager} (h : Sync s) (d : Nat)
    (hd0 : d ≠ 0) : CurrentIs (addedState s d) d (s.nextAddr + 1) := by
  have hpos := h.nextPos
  have hlen := h.tabs.length_eq
  have hidx : ((s.mDocuments.length : Int)).toNat = s.mDocuments.length := by simp
  have hne : (s.mDocuments.length : Int) ≠ -1 := by omega
  have hnl : ¬ (s.mDocuments.length : Int) < 0 := by omega
  have hw : (addedState s d).mTabWidget.currentWidget = s.nextAddr := by
    simp [addedState, QTabWidget.currentWidget, hlen]
  constructor
  · simp [addedState, currentDocument, QList.at, hne]
  · simp only [currentMapScene, currentMapView, hw]
    simp [addedState]
    omega
  · simp [addedState, hd0]
  · simp [addedState]
  · intro _; simp [addedState]
  · intro _; simp [addedState, sceneDocument]
  · intro _
    refine ⟨⟨s.nextAddr, s.tabTitle d, s.fileName d⟩, ?_, ?_, ?_, ?_⟩
    · simp [addedState, hlen]
    · simp only [currentMapView, hw]
    · simp; omega
    · simp [addedState]

theorem addDocument_eq {s : DocumentManager} (h : Inv s) (d : Nat)
    (hd0 : d ≠ 0) (hd : d ∉ s.mDocuments) :
    s.addDocument d = some (slotResult (addedState s d) d (s.nextAddr + 1)) := by
  have hpos := h.nextPos
  have hlen := h.tabs.length_eq
  have hsync := addedState_sync h.toSync d hd0 hd
  have hcur := addedState_currentIs h.toSync d hd0
  have hslot := currentIndexChanged_sync hsync hcur
  have hnp : ¬ s.nextAddr = 0 := by omega
  rcases h.index with ⟨hi, hdocs⟩ | ⟨h0, hlt⟩
  · have htabs : s.mTabWidget.tabs = [] := by
      rw [hdocs] at hlen
      exact List.length_eq_zero.mp hlen.symm
    have hswt : s.mSceneWithTool = 0 := by
      have := h.current
      simp [currentMapScene, currentMapView, QTabWidget.currentWidget, hi] at this
      exact this.symm
    simp only [addDocument, hd0, hd, if_false, QTabWidget.addTab, hnp, htabs, hdocs,
      List.nil_append, List.length_singleton, List.length_nil, if_true, QTabWidget.setCurrentIndex,
      QTabWidget.validIndex, hi, afterTabWidgetCall]
    simp only [Nat.cast_zero, le_refl, decide_True, Nat.cast_one, zero_lt_one, Bool.and_self, ne_eq,
      Int.reduceNeg, Int.reduceEq, not_false_eq_true, Bool.true_and, if_true]
    rw [currentIndexChanged_eq _ d (s.nextAddr + 1)]
    · simp only [List.not_mem_nil, if_false]
      simp [switchToDocument, afterTabWidgetCall, QTabWidget.setCurrentIndex, QTabWidget.setTabToolTip,
        QTabWidget.validIndex, slotResult, addedState, hdocs, htabs, tabTitle]
    · simp [hswt]
    · simp [currentDocument, QList.at]
    · simp only [currentMapScene, currentMapView, QTabWidget.currentWidget]
      show (if ¬ s.nextAddr = 0 then
          (match Function.update s.views s.nextAddr (some { scene := s.nextAddr + 1 }) s.nextAddr with
          | none => none
          | some v => some v.scene) else some 0) = some (s.nextAddr + 1)
      simp [hnp]
    · simp
  · have hne : s.mDocuments ≠ [] := by
      intro hn
      rw [hn] at hlt
      simp at hlt
      omega
    have hlen1 : s.mTabWidget.tabs.length ≠ 0 := by
      rw [← hlen]
      exact fun hh => hne (List.length_eq_zero.mp hh)
    have hlt2 : ¬ ((s.mTabWidget.tabs.length : Int) ≤ s.mTabWidget.currentIndex) := by omega
    simp only [addDocument, hd0, hd, if_false, QTabWidget.addTab, hnp, afterTabWidgetCall,
      List.length_append, List.length_singleton, Nat.add_eq_right, hlen1, hlt2]
    have hcne : ¬ s.mTabWidget.currentIndex = (s.mTabWidget.tabs.length : Int) := by omega
    have hslot2 := hslot
    simp only [addedState, tabTitle, hlen] at hslot2
    simp [switchToDocument, afterTabWidgetCall, QTabWidget.setCurrentIndex, QTabWidget.setTabToolTip,
      QTabWidget.validIndex, hlen, modify_length_append, hcne, tabTitle]
    rw [hslot2]
    simp [addedState, tabTitle, hlen]

theorem addDocument_pre {s s' : DocumentManager} {d : Nat} (hs : s.addDocument d = some s') :
    d ≠ 0 ∧ d ∉ s.mDocuments := by
  unfold addDocument at hs
  by_cases h0 : d = 0
  · simp [h0] at hs
  · by_cases h1 : d ∈ s.mDocuments
    · simp [h0, h1] at hs
    · exact ⟨h0, h1⟩

theorem addDocument_inv {s s' : DocumentManager} (h : Inv s) (d : Nat)
    (hs : s.addDocument d = some s') : Inv s' := by
  obtain ⟨hd0, hd⟩ := addDocument_pre hs
  rw [addDocument_eq h d hd0 hd] at hs
  cases hs
  exact slotResult_inv (addedState_sync h.toSync d hd0 hd) (addedState_currentIs h.toSync d hd0)

/-! ## `closeCurrentDocument` -/

theorem removeTab_current (w : QTabWidget) (h0 : 0 ≤ w.currentIndex)
    (hlt : w.currentIndex < (w.tabs.length : Int)) :
    (w.removeTab w.currentIndex).2 = true ∧
    (w.removeTab w.currentIndex).1.tabs = w.tabs.eraseIdx w.currentIndex.toNat ∧
    (((w.removeTab w.currentIndex).1.currentIndex = -1 ∧ w.tabs.length = 1) ∨
      (0 ≤ (w.removeTab w.currentIndex).1.currentIndex ∧
        (w.removeTab w.currentIndex).1.currentIndex < (w.tabs.length : Int) - 1)) := by
  have hv : w.validIndex w.currentIndex = true := by
    simp [QTabWidget.validIndex, h0, hlt]
  have hlen : (w.tabs.eraseIdx w.currentIndex.toNat).length = w.tabs.length - 1 := by
    rw [List.length_eraseIdx]
    have : w.currentIndex.toNat < w.tabs.length := by omega
    simp [this]
  by_cases h1 : w.tabs.length = 1
  · simp [QTabWidget.removeTab, hv, hlen, h1]
  · have hpos : 0 < w.tabs.length - 1 := by omega
    by_cases h2 : ((w.tabs.length - 1 : Nat) : Int) ≤ w.currentIndex
    · have hv2 : (QTabWidget.mk (w.tabs.eraseIdx w.currentIndex.toNat) (-1)).validIndex
          (((w.tabs.length - 1 : Nat) : Int) - 1) = true := by
        simp [QTabWidget.validIndex, hlen]; omega
      have hne : ¬ (-1 : Int) = ((w.tabs.length - 1 : Nat) : Int) - 1 := by omega
      simp [QTabWidget.removeTab, hv, hlen, hpos, h2, QTabWidget.setCurrentIndex, hv2, hne]
      omega
    · have hv2 : (QTabWidget.mk (w.tabs.eraseIdx w.currentIndex.toNat) (-1)).validIndex
          w.currentIndex = true := by
        simp [QTabWidget.validIndex, hlen]; omega
      have hne : ¬ (-1 : Int) = w.currentIndex := by omega
      simp [QTabWidget.removeTab, hv, hlen, hpos, h2, QTabWidget.setCurrentIndex, hv2, hne]
      omega

theorem mem_eraseIdx_of_nodup {l : List Nat} (hn : l.Nodup) (i : Nat) (a : Nat)
    (hi : l[i]? = some a) : a ∉ l.eraseIdx i := by
  induction l generalizing i with
  | nil => simp
  | cons x xs ih =>
    cases i with
    | zero =>
      simp at hi
      subst hi
      simpa using (List.nodup_cons.mp hn).1
    | succ n =>
      simp at hi
      have hx := (List.nodup_cons.mp hn)
      simp only [List.eraseIdx_cons_succ, List.mem_cons, not_or]
      refine ⟨?_, ih hx.2 n hi⟩
      intro hax
      subst hax
      exact hx.1 (List.getElem?_mem hi)

theorem closingState_sync {s : DocumentManager} (h : Inv s)
    (h0 : 0 ≤ s.mTabWidget.currentIndex) : Sync (closingState s) := by
  have hlen := h.tabs.length_eq
  have hlt : s.mTabWidget.currentIndex < (s.mTabWidget.tabs.length : Int) := by
    rcases h.index with hi | hi
    · omega
    · omega
  obtain ⟨_, htabs, hidx⟩ := removeTab_current s.mTabWidget h0 hlt
  have hsub : (s.mDocuments.eraseIdx s.mTabWidget.currentIndex.toNat).Sublist s.mDocuments :=
    List.eraseIdx_sublist _ _
  have hlen2 : (s.mDocuments.eraseIdx s.mTabWidget.currentIndex.toNat).length
      = s.mDocuments.length - 1 := by
    rw [List.length_eraseIdx]
    have : s.mTabWidget.currentIndex.toNat < s.mDocuments.length := by omega
    simp [this]
  constructor
  · simp only [closingState, htabs]
    exact forall₂_imp_mem (forall₂_eraseIdx h.tabs _)
      (fun a b _ hab => hab.transfer rfl (fun _ _ => rfl) rfl)
  · exact h.nodup.sublist hsub
  · exact fun hm => h.nonnull (hsub.subset hm)
  · simp only [closingState]
    rcases hidx with ⟨hi, hone⟩ | ⟨hi0, hi1⟩
    · left
      refine ⟨hi, List.length_eq_zero.mp ?_⟩
      rw [hlen2]; omega
    · right
      rw [hlen2]
      omega
  · exact h.fresh
  · exact h.nextPos
  · exact h.null
  · exact h.held
  · exact h.enabled
  · exact fun d hd => h.undo d (hsub.subset hd)
  · exact h.untitled
  · exact h.logHead
  · exact h.logPair
  · exact h.logLast
  · exact h.logHeld
  · exact h.lookups

theorem closeCurrentDocument_eq {s : DocumentManager} (h : Inv s)
    (h0 : 0 ≤ s.mTabWidget.currentIndex) :
    ∃ d0 t0 d scene, s.mDocuments[s.mTabWidget.currentIndex.toNat]? = some d0 ∧
      s.mTabWidget.tabs[s.mTabWidget.currentIndex.toNat]? = some t0 ∧
      t0.widget ≠ 0 ∧ s.mSceneWithTool ≠ 0 ∧
      s.views t0.widget = some ⟨s.mSceneWithTool⟩ ∧
      s.sceneDocument s.mSceneWithTool = some d0 ∧
      CurrentIs (closingState s) d scene ∧
      s.closeCurrentDocument =
        some (deleteMapDocument d0
          (deletedState (slotResult (closingState s) d scene) t0.widget s.mSceneWithTool)) := by
  have hsync := closingState_sync h h0
  obtain ⟨d, scene, hc⟩ := hsync.currentIs
  obtain ⟨d0, sc0, hc0⟩ := h.toSync.currentIs
  have hne : s.mTabWidget.currentIndex ≠ -1 := by omega
  have hsc0 : sc0 ≠ 0 := fun hh => hne (hc0.sceneNull.mp hh)
  have hd0 : d0 ≠ 0 := fun hh => hne (hc0.docNull.mp hh)
  have hswt : s.mSceneWithTool = sc0 := by
    have := h.current
    rw [hc0.sceneEq] at this
    exact (Option.some.inj this).symm
  subst hswt
  obtain ⟨t0, ht0, hmv, hw0, hv0⟩ := hc0.view hsc0
  refine ⟨d0, t0, d, scene, hc0.docAt hd0, ht0, hw0, hsc0, hv0, hc0.shows hsc0, hc, ?_⟩
  have hlen := h.tabs.length_eq
  have hlt : s.mTabWidget.currentIndex < (s.mTabWidget.tabs.length : Int) := by
    rcases h.index with hi | hi
    · omega
    · omega
  obtain ⟨hemit, _, _⟩ := removeTab_current s.mTabWidget h0 hlt
  have hslot := currentIndexChanged_sync hsync hc
  have hat : QList.at s.mDocuments s.mTabWidget.currentIndex = some d0 := by
    have : ¬ s.mTabWidget.currentIndex < 0 := by omega
    simp [QList.at, this, hc0.docAt hd0]
  have hmv2 : s.mTabWidget.currentWidget = t0.widget := hmv
  simp only [closingState] at hslot
  have hv1 : ((closingState s).slotResult d scene).views t0.widget = some ⟨s.mSceneWithTool⟩ := hv0
  simp only [closingState] at hv1
  simp only [closeCurrentDocument, hne, if_false, hat, afterTabWidgetCall, hemit, if_true, hslot,
    currentMapView, hmv2, deleteMapView, hw0, hv1, closingState, deletedState]

theorem deletedState_inv {s : DocumentManager} (h : Inv s)
    (view scene d0 : Nat) (hv : s.views view = some ⟨scene⟩)
    (hd0 : s.sceneDocument scene = some d0) (hnot : d0 ∉ s.mDocuments) :
    Inv (deletedState s view scene) := by
  have hkey : ∀ p v a, s.views p = some v → s.sceneDocument v.scene = some a → a ∈ s.mDocuments →
      p ≠ view ∧ v.scene ≠ scene := by
    intro p v a hp ha hmem
    have h2 : v.scene ≠ scene := by
      intro he
      rw [he, hd0] at ha
      exact hnot ((Option.some.inj ha) ▸ hmem)
    refine ⟨?_, h2⟩
    intro he
    rw [he, hv] at hp
    exact h2 (by rw [← Option.some.inj hp])
  obtain ⟨d, sc, hc⟩ := h.toSync.currentIs
  have hswt : s.mSceneWithTool = sc := by
    have := h.current
    rw [hc.sceneEq] at this
    exact (Option.some.inj this).symm
  have hcur : sc ≠ 0 → s.currentMapView ≠ view ∧ sc ≠ scene := by
    intro hsc
    obtain ⟨t, ht, hmv, _, hvt⟩ := hc.view hsc
    have hd : d ≠ 0 := fun hh => hsc (hc.sceneNull.mpr (hc.docNull.mp hh))
    have := hkey t.widget ⟨sc⟩ d hvt (hc.shows hsc) (List.getElem?_mem (hc.docAt hd))
    exact ⟨hmv ▸ this.1, this.2⟩
  have hsame : s.mSceneWithTool ≠ 0 →
      (deletedState s view scene).scenes s.mSceneWithTool = s.scenes s.mSceneWithTool := by
    intro hs
    have := (hcur (hswt ▸ hs)).2
    simp only [deletedState]
    rw [Function.update_noteq (hswt ▸ this)]
  refine ⟨?_, ?_, ?_, ?_⟩
  · constructor
    · refine forall₂_imp_mem h.tabs (fun a b ha hab => ?_)
      obtain ⟨hw, v, hview, hvs, hdoc, htext⟩ := hab
      have := hkey b.widget v a hview hdoc ha
      refine ⟨hw, v, ?_, hvs, ?_, htext⟩
      · simp only [deletedState]
        rw [Function.update_noteq this.1, hview]
      · simp only [deletedState, sceneDocument]
        rw [Function.update_noteq this.2]
        exact hdoc
    · exact h.nodup
    · exact h.nonnull
    · exact h.index
    · intro p hp
      have := h.fresh p hp
      simp only [deletedState]
      constructor
      · by_cases hpv : p = view
        · subst hpv; exact Function.update_same _ _ _
        · rw [Function.update_noteq hpv]; exact this.1
      · by_cases hps : p = scene
        · subst hps; exact Function.update_same _ _ _
        · rw [Function.update_noteq hps]; exact this.2
    · exact h.nextPos
    · simp only [deletedState]
      constructor
      · by_cases hpv : 0 = view
        · subst hpv; exact Function.update_same _ _ _
        · rw [Function.update_noteq hpv]; exact h.null.1
      · by_cases hps : 0 = scene
        · subst hps; exact Function.update_same _ _ _
        · rw [Function.update_noteq hps]; exact h.null.2
    · intro hs
      have hs2 : s.mSceneWithTool ≠ 0 := hs
      show ((deletedState s view scene).scenes s.mSceneWithTool).isSome = true
      rw [hsame hs2]
      exact h.held hs2
    · intro p sc1 hp he
      simp only [deletedState] at hp
      by_cases hps : p = scene
      · subst hps
        rw [Function.update_same] at hp
        cases hp
      · rw [Function.update_noteq hps] at hp
        exact h.enabled p sc1 hp he
    · exact h.undo
    · exact h.untitled
    · exact h.logHead
    · exact h.logPair
    · exact h.logLast
    · exact h.logHeld
    · exact h.lookups
  · show (deletedState s view scene).currentMapScene = some s.mSceneWithTool
    by_cases hsc : sc = 0
    · have hi := hc.sceneNull.mp hsc
      rw [hswt, hsc]
      simp [currentMapScene, currentMapView, QTabWidget.currentWidget, deletedState, hi]
    · obtain ⟨t, ht, hmv, hw, hvt⟩ := hc.view hsc
      have hne := (hcur hsc).1
      rw [hmv] at hne
      have hmv2 : s.mTabWidget.currentWidget = t.widget := hmv
      simp only [currentMapScene, currentMapView, deletedState, hmv2, ne_eq, hw,
        not_false_eq_true, if_true]
      rw [Function.update_noteq hne, hvt, hswt]
  · exact h.active
  · intro hs ht
    have hs2 : s.mSceneWithTool ≠ 0 := hs
    show ∃ sc, (deletedState s view scene).scenes s.mSceneWithTool = some sc ∧ _
    rw [hsame hs2]
    exact h.toolSet hs2 ht

theorem removeStack_members (g : QUndoGroup) (stack m : QUndoStack) (hm : m ∈ g.members)
    (hne : m ≠ stack) : m ∈ (g.removeStack stack).members := by
  unfold QUndoGroup.removeStack
  by_cases h : stack ∈ g.members
  · simp [h, hm, hne]
  · simp [h, hm]

theorem removeStack_active (g : QUndoGroup) (stack a : QUndoStack)
    (ha : g.activeStack = some a) (hne : a ≠ stack) :
    (g.removeStack stack).activeStack = some a := by
  unfold QUndoGroup.removeStack
  split_ifs with h1 h2
  · rw [ha] at h2
    exact absurd (Option.some.inj h2) hne
  · exact ha
  · exact ha

theorem deleteMapDocument_inv {s : DocumentManager} (h : Inv s) (d0 : Nat)
    (hnot : d0 ∉ s.mDocuments) : Inv (deleteMapDocument d0 s) := by
  have hstack : ∀ a ∈ s.mDocuments, MapDocument.undoStack a ≠ MapDocument.undoStack d0 := by
    intro a ha he
    have : a = d0 := by
      simpa [MapDocument.undoStack] using he
    exact hnot (this ▸ ha)
  refine ⟨⟨?_, h.nodup, h.nonnull, h.index, h.fresh, h.nextPos, h.null, h.held, h.enabled, ?_,
    h.untitled, h.logHead, h.logPair, h.logLast, h.logHeld, h.lookups⟩, h.current, ?_, h.toolSet⟩
  · exact forall₂_imp_mem h.tabs (fun a b _ hab => hab.transfer rfl (fun _ _ => rfl) rfl)
  · intro a ha
    exact removeStack_members _ _ _ (h.undo a ha) (hstack a ha)
  · intro a ha hane
    have hcur : s.currentDocument = some a := ha
    obtain ⟨d, scene, hc⟩ := h.toSync.currentIs
    have had : d = a := by
      rw [hc.docEq] at hcur
      exact Option.some.inj hcur
    subst had
    have hmem : d ∈ s.mDocuments := List.getElem?_mem (hc.docAt hane)
    exact removeStack_active _ _ _ (h.active d hcur hane) (hstack d hmem)

theorem closeCurrentDocument_none (s : DocumentManager) (h : s.mTabWidget.currentIndex = -1) :
    s.closeCurrentDocument = some s := by
  simp [closeCurrentDocument, h]

theorem closeCurrentDocument_inv {s s' : DocumentManager} (h : Inv s)
    (hs : s.closeCurrentDocument = some s') : Inv s' := by
  rcases h.index with ⟨hi, _⟩ | ⟨h0, _⟩
  · rw [closeCurrentDocument_none s hi] at hs
    cases hs
    exact h
  · obtain ⟨d0, t0, d, scene, hd0, _, _, _, hv0, hsd0, hc, heq⟩ := closeCurrentDocument_eq h h0
    rw [heq] at hs
    cases hs
    have hsync := closingState_sync h h0
    have hnot := mem_eraseIdx_of_nodup h.nodup _ _ hd0
    refine deleteMapDocument_inv (deletedState_inv (slotResult_inv hsync hc) _ _ d0 hv0 ?_ hnot)
      d0 hnot
    rw [slotResult_sceneDocument]
    exact hsd0

theorem closeCurrentDocument_length {s s' : DocumentManager} (h : Inv s)
    (hne : s.mDocuments ≠ []) (hs : s.closeCurrentDocument = some s') :
    s'.mDocuments.length + 1 = s.mDocuments.length := by
  rcases h.index with ⟨_, hd⟩ | ⟨h0, hlt⟩
  · exact absurd hd hne
  · obtain ⟨d0, t0, d, scene, hd0, _, _, _, hv0, hsd0, hc, heq⟩ := closeCurrentDocument_eq h h0
    rw [heq] at hs
    cases hs
    simp only [deleteMapDocument, deletedState, slotResult, closingState, List.length_eraseIdx]
    have : s.mTabWidget.currentIndex.toNat < s.mDocuments.length := by omega
    simp [this]
    omega

theorem closeCurrentDocument_total {s : DocumentManager} (h : Inv s) :
    ∃ s', s.closeCurrentDocument = some s' := by
  rcases h.index with ⟨hi, _⟩ | ⟨h0, _⟩
  · exact ⟨s, closeCurrentDocument_none s hi⟩
  · obtain ⟨_, _, _, _, _, _, _, _, _, _, _, heq⟩ := closeCurrentDocument_eq h h0
    exact ⟨_, heq⟩

/-! ## `closeAllDocuments` -/

theorem closeAllDocuments_inv (fuel : Nat) :
    ∀ (s s' : DocumentManager) (n : Nat), Inv s →
      closeAllDocuments fuel s = some (s', n) → Inv s' ∧ s'.mDocuments = [] := by
  induction fuel with
  | zero =>
    intro s s' n h hs
    unfold closeAllDocuments at hs
    by_cases he : s.mDocuments.isEmpty = true
    · simp [he] at hs
      rw [← hs.1]
      exact ⟨h, List.isEmpty_iff.mp he⟩
    · simp [he] at hs
  | succ fuel ih =>
    intro s s' n h hs
    unfold closeAllDocuments at hs
    by_cases he : s.mDocuments.isEmpty = true
    · simp [he] at hs
      rw [← hs.1]
      exact ⟨h, List.isEmpty_iff.mp he⟩
    · simp only [he] at hs
      cases hc : s.closeCurrentDocument with
      | none => simp [hc] at hs
      | some s1 =>
        cases hl : closeAllDocuments fuel s1 with
        | none => simp [hc, hl] at hs
        | some r =>
          obtain ⟨s2, m⟩ := r
          simp [hc, hl] at hs
          rw [← hs.1]
          exact ih s1 s2 m (closeCurrentDocument_inv h hc) hl

theorem closeAllDocuments_total (fuel : Nat) :
    ∀ (s : DocumentManager), Inv s → s.mDocuments.length ≤ fuel →
      ∃ s', closeAllDocuments fuel s = some (s', s.mDocuments.length) := by
  induction fuel with
  | zero =>
    intro s _ hle
    have : s.mDocuments = [] := List.length_eq_zero.mp (by omega)
    exact ⟨s, by simp [closeAllDocuments, this]⟩
  | succ fuel ih =>
    intro s h hle
    by_cases he : s.mDocuments = []
    · exact ⟨s, by simp [closeAllDocuments, he]⟩
    · obtain ⟨s1, hc⟩ := closeCurrentDocument_total h
      have hlen := closeCurrentDocument_length h he hc
      obtain ⟨s2, hl⟩ := ih s1 (closeCurrentDocument_inv h hc) (by omega)
      refine ⟨s2, ?_⟩
      have he2 : s.mDocuments.isEmpty = false := by
        cases hd : s.mDocuments with
        | nil => exact absurd hd he
        | cons _ _ => rfl
      unfold closeAllDocuments
      simp [he2, hc, hl, hlen]

/-! ## `setSelectedTool` -/

theorem setSelectedTool_same (s : DocumentManager) : s.setSelectedTool s.mSelectedTool = some s := by
  simp [setSelectedTool]

theorem setSelectedTool_noScene (s : DocumentManager) (tool : Nat)
    (hne : s.mSelectedTool ≠ tool) (h0 : s.mSceneWithTool = 0) :
    s.setSelectedTool tool = some { s with mSelectedTool := tool } := by
  simp [setSelectedTool, hne, h0]

theorem setSelectedTool_scene (s : DocumentManager) (tool : Nat)
    (hne : s.mSelectedTool ≠ tool) (h0 : s.mSceneWithTool ≠ 0)
    (hlive : (s.scenes s.mSceneWithTool).isSome) :
    s.setSelectedTool tool = some (toolChangedState s tool) := by
  obtain ⟨sc, hsc⟩ := Option.isSome_iff_exists.mp hlive
  by_cases ht : tool = 0
  · subst ht
    simp only [setSelectedTool, hne, if_false, ne_eq, h0, not_false_eq_true, if_true,
      sceneDisableSelectedTool, hsc, not_true_eq_false, toolChangedState, List.append_nil]
    congr 2
    funext p
    by_cases hp : p = s.mSceneWithTool
    · subst hp; simp [hsc]
    · simp [hp, Function.update_noteq hp]
  · simp only [setSelectedTool, hne, if_false, ne_eq, h0, not_false_eq_true, if_true,
      sceneDisableSelectedTool, sceneSetSelectedTool, sceneEnableSelectedTool, hsc, ht,
      toolChangedState, Function.update_same, Function.update_idem]
    congr 2
    funext p
    by_cases hp : p = s.mSceneWithTool
    · subst hp; simp [hsc]
    · simp [hp, Function.update_noteq hp]

theorem toolChangedState_sceneDocument (s : DocumentManager) (tool p : Nat) :
    (toolChangedState s tool).sceneDocument p = s.sceneDocument p := by
  simp only [sceneDocument, toolChangedState]
  split_ifs <;> cases s.scenes p <;> simp

theorem toolChangedState_callsOn (s : DocumentManager) (tool p : Nat) :
    callsOn p (toolChangedState s tool).sceneCalls =
      callsOn p s.sceneCalls
        ++ (if s.mSceneWithTool = p then [SceneCall.disable] else [])
        ++ (if tool ≠ 0 ∧ s.mSceneWithTool = p then [SceneCall.enable] else []) := by
  simp only [toolChangedState, callsOn_append, callsOn_single]
  congr 1
  by_cases h : tool = 0
  · simp [h, callsOn_nil]
  · by_cases h2 : s.mSceneWithTool = p
    · rw [if_pos h, if_pos ⟨h, h2⟩, callsOn_single, if_pos h2]
    · rw [if_pos h, if_neg (fun hh => h2 hh.2), callsOn_single, if_neg h2]

theorem noTool_inv {s : DocumentManager} (h : Inv s) (tool : Nat)
    (h0 : s.mSceneWithTool = 0) : Inv { s with mSelectedTool := tool } := by
  refine ⟨⟨?_, h.nodup, h.nonnull, h.index, h.fresh, h.nextPos, h.null, h.held, h.enabled, h.undo,
    h.untitled, h.logHead, h.logPair, h.logLast, h.logHeld, h.lookups⟩, h.current, h.active, ?_⟩
  · exact forall₂_imp_mem h.tabs (fun a b _ hab => hab.transfer rfl (fun _ _ => rfl) rfl)
  · intro hs
    exact absurd h0 hs

theorem toolChangedState_inv {s : DocumentManager} (h : Inv s) (tool : Nat)
    (h0 : s.mSceneWithTool ≠ 0) : Inv (toolChangedState s tool) := by
  obtain ⟨sc, hsc⟩ := Option.isSome_iff_exists.mp (h.held h0)
  refine ⟨?_, ?_, ?_, ?_⟩
  · constructor
    · exact forall₂_imp_mem h.tabs (fun a b _ hab =>
        hab.transfer rfl (fun v _ => toolChangedState_sceneDocument s tool v.scene) rfl)
    · exact h.nodup
    · exact h.nonnull
    · exact h.index
    · intro p hp
      have := h.fresh p hp
      refine ⟨this.1, ?_⟩
      simp only [toolChangedState]
      split_ifs <;> simp [this.2]
    · exact h.nextPos
    · refine ⟨h.null.1, ?_⟩
      simp only [toolChangedState]
      split_ifs <;> simp [h.null.2]
    · intro _
      simp [toolChangedState, hsc]
    · intro p sc1 hp he
      simp only [toolChangedState] at hp ⊢
      by_cases h1 : p = s.mSceneWithTool
      · exact h1
      · rw [if_neg h1] at hp
        exact h.enabled p sc1 hp he
    · exact h.undo
    · exact h.untitled
    · intro p
      rw [toolChangedState_callsOn]
      by_cases h1 : s.mSceneWithTool = p
      · have hne : callsOn p s.sceneCalls ≠ [] := h1 ▸ h.logHeld h0
        rw [if_pos h1]
        split_ifs
        · exact startsWithEnable_append_enable (startsWithEnable_append_disable (h.logHead p) hne)
        · simpa using startsWithEnable_append_disable (h.logHead p) hne
      · rw [if_neg h1, if_neg (fun hh => h1 hh.2)]
        simpa using h.logHead p
    · intro p
      rw [toolChangedState_callsOn]
      by_cases h1 : s.mSceneWithTool = p
      · rw [if_pos h1]
        split_ifs
        · exact noRepeatedEnable_append_enable (noRepeatedEnable_append_disable (h.logPair p))
            (by simp)
        · simpa using noRepeatedEnable_append_disable (h.logPair p)
      · rw [if_neg h1, if_neg (fun hh => h1 hh.2)]
        simpa using h.logPair p
    · intro p
      rw [toolChangedState_callsOn]
      by_cases h1 : s.mSceneWithTool = p
      · intro _
        exact ⟨h1.symm, h1 ▸ h0⟩
      · rw [if_neg h1, if_neg (fun hh => h1 hh.2)]
        simpa using h.logLast p
    · intro _
      rw [toolChangedState_callsOn]
      have : s.mSceneWithTool = (toolChangedState s tool).mSceneWithTool := rfl
      rw [if_pos this]
      split_ifs <;> simp
    · exact h.lookups
  · have := h.current
    simpa [currentMapScene, currentMapView, toolChangedState] using this
  · exact h.active
  · intro _ ht
    have ht2 : tool ≠ 0 := ht
    exact ⟨{ sc with selectedTool := tool, toolEnabled := true },
      by simp [toolChangedState, hsc, ht2], rfl, rfl⟩

theorem setSelectedTool_inv {s s' : DocumentManager} (h : Inv s) (tool : Nat)
    (hs : s.setSelectedTool tool = some s') : Inv s' := by
  by_cases hsame : s.mSelectedTool = tool
  · subst hsame
    rw [setSelectedTool_same] at hs
    cases hs
    exact h
  · by_cases h0 : s.mSceneWithTool = 0
    · rw [setSelectedTool_noScene s tool hsame h0] at hs
      cases hs
      exact noTool_inv h tool h0
    · rw [setSelectedTool_scene s tool hsame h0 (h.held h0)] at hs
      cases hs
      exact toolChangedState_inv h tool h0

theorem setSelectedTool_strict {s s' : DocumentManager} (h : Inv s)
    (hst : Strict s) (tool : Nat) (ht : tool ≠ 0) (hs : s.setSelectedTool tool = some s') :
    Strict s' := by
  by_cases hsame : s.mSelectedTool = tool
  · subst hsame
    rw [setSelectedTool_same] at hs
    cases hs
    exact hst
  · by_cases h0 : s.mSceneWithTool = 0
    · rw [setSelectedTool_noScene s tool hsame h0] at hs
      cases hs
      exact ⟨hst.alternates, fun hh => absurd h0 hh, fun hh => absurd h0 hh⟩
    · rw [setSelectedTool_scene s tool hsame h0 (h.held h0)] at hs
      cases hs
      obtain ⟨sc, hsc⟩ := Option.isSome_iff_exists.mp (h.held h0)
      refine ⟨?_, ?_, ?_⟩
      · intro p
        rw [toolChangedState_callsOn]
        by_cases h1 : s.mSceneWithTool = p
        · rw [if_pos h1, if_pos ⟨ht, h1⟩]
          have hl : (callsOn p s.sceneCalls).getLast? ≠ some SceneCall.disable := by
            rw [← h1, hst.lastEnable h0]; simp
          exact alternates_append (alternates_append (hst.alternates p) hl) (by simp)
        · rw [if_neg h1, if_neg (fun hh => h1 hh.2)]
          simpa using hst.alternates p
      · intro _
        rw [toolChangedState_callsOn]
        have : s.mSceneWithTool = (toolChangedState s tool).mSceneWithTool := rfl
        rw [if_pos this, if_pos ⟨ht, this⟩]
        simp
      · intro _
        exact ⟨{ sc with selectedTool := tool, toolEnabled := true },
          by simp [toolChangedState, hsc, ht], rfl⟩

/-! ## Renaming a document -/

theorem forall₂_modify_indexOf {R S : Nat → Tab → Prop} {docs : List Nat} {tabs : List Tab}
    (h : List.Forall₂ R docs tabs) (hn : docs.Nodup) (x : Nat) (f : Tab → Tab)
    (h1 : ∀ a b, a ≠ x → R a b → S a b) (h2 : ∀ b, R x b → S x (f b)) :
    List.Forall₂ S docs (tabs.modify f (docs.indexOf x)) := by
  induction h with
  | nil => simp
  | @cons a b l1 l2 hab hrest ih =>
    have hnd := List.nodup_cons.mp hn
    by_cases hax : a = x
    · subst hax
      rw [List.indexOf_cons_self]
      simp only [List.modify_zero_cons]
      refine List.Forall₂.cons (h2 b hab) (forall₂_imp_mem hrest (fun c e hc hce => h1 c e ?_ hce))
      intro hca
      exact hnd.1 (hca ▸ hc)
    · rw [List.indexOf_cons_ne _ hax]
      simp only [List.modify_succ_cons]
      exact List.Forall₂.cons (h1 a b hax hab) (ih hnd.2)

theorem renameDocument_eq (s : DocumentManager) (d : Nat) (name : String) (hd : d ≠ 0) :
    s.renameDocument d name = some (renamedState s d name) := by
  simp [renameDocument, documentFileNameChanged, hd, renamedState]

theorem setTabText_currentIndex (w : QTabWidget) (index : Int) (text : String) :
    (w.setTabText index text).currentIndex = w.currentIndex := by
  unfold QTabWidget.setTabText
  split_ifs <;> rfl

theorem setTabText_currentWidget (w : QTabWidget) (index : Int) (text : String) :
    (w.setTabText index text).currentWidget = w.currentWidget := by
  unfold QTabWidget.setTabText
  split_ifs with hv
  · simp only [QTabWidget.currentWidget]
    split_ifs with hneg
    · rfl
    · rw [List.getElem?_modify]
      cases w.tabs[w.currentIndex.toNat]? with
      | none => rfl
      | some t =>
        by_cases hi : index.toNat = w.currentIndex.toNat <;> simp [hi]
  · rfl

theorem renamedState_tabs (s : DocumentManager) (d : Nat) (name : String)
    (hlen : s.mDocuments.length = s.mTabWidget.tabs.length) :
    (renamedState s d name).mTabWidget.tabs =
      if d ∈ s.mDocuments then
        s.mTabWidget.tabs.modify
          (fun t => { t with text := tabTitle (renamedState s d name) d }) (s.mDocuments.indexOf d)
      else s.mTabWidget.tabs := by
  by_cases hm : d ∈ s.mDocuments
  · have hlt : s.mDocuments.indexOf d < s.mTabWidget.tabs.length := by
      rw [← hlen]
      exact List.indexOf_lt_length.mpr hm
    have hv : s.mTabWidget.validIndex (s.mDocuments.indexOf d : Int) = true := by
      simp [QTabWidget.validIndex, hlt]
    simp [renamedState, QList.indexOf, hm, QTabWidget.setTabText, hv, tabTitle]
  · have hv : s.mTabWidget.validIndex (-1) = false := by
      simp [QTabWidget.validIndex]
    simp [renamedState, QList.indexOf, hm, QTabWidget.setTabText, hv]

theorem renamedState_inv {s : DocumentManager} (h : Inv s) (d : Nat)
    (name : String) : Inv (renamedState s d name) := by
  have hlen := h.tabs.length_eq
  have htitle : ∀ a, a ≠ d → tabTitle (renamedState s d name) a = tabTitle s a := by
    intro a ha
    simp [tabTitle, renamedState, Function.update_noteq ha]
  have htabs : List.Forall₂ (ShowsDocument (renamedState s d name)) s.mDocuments
      (renamedState s d name).mTabWidget.tabs := by
    rw [renamedState_tabs s d name hlen]
    split_ifs with hm
    · refine forall₂_modify_indexOf h.tabs h.nodup d _ ?_ ?_
      · intro a b ha hab
        exact hab.transfer rfl (fun _ _ => rfl) (htitle a ha)
      · intro b hab
        obtain ⟨hw, v, hview, hvs, hdoc, _⟩ := hab
        exact ⟨hw, v, hview, hvs, hdoc, rfl⟩
    · refine forall₂_imp_mem h.tabs (fun a b ha hab => ?_)
      exact hab.transfer rfl (fun _ _ => rfl) (htitle a (fun hh => hm (hh ▸ ha)))
  have hidx : (renamedState s d name).mTabWidget.currentIndex = s.mTabWidget.currentIndex :=
    setTabText_currentIndex _ _ _
  have hcw : (renamedState s d name).mTabWidget.currentWidget = s.mTabWidget.currentWidget :=
    setTabText_currentWidget _ _ _
  refine ⟨⟨htabs, h.nodup, h.nonnull, ?_, h.fresh, h.nextPos, h.null, h.held, h.enabled, h.undo,
    h.untitled, h.logHead, h.logPair, h.logLast, h.logHeld, h.lookups⟩, ?_, ?_, h.toolSet⟩
  · rw [hidx]; exact h.index
  · have := h.current
    simp only [currentMapScene, currentMapView] at this ⊢
    rw [hcw]
    exact this
  · intro a ha
    apply h.active a
    simp only [currentDocument] at ha ⊢
    rw [hidx] at ha
    exact ha

theorem renameDocument_inv {s s' : DocumentManager} (h : Inv s) (d : Nat)
    (name : String) (hs : s.renameDocument d name = some s') : Inv s' := by
  by_cases hd : d = 0
  · simp [renameDocument, documentFileNameChanged, hd] at hs
  · rw [renameDocument_eq s d name hd] at hs
    cases hs
    exact renamedState_inv h d name

/-! ## Construction -/

theorem new_eq (tool : Nat) (fileName : Nat → String) :
    new tool fileName = some { fresh with fileName := fileName, mSelectedTool := tool } := by
  by_cases h : tool = 0
  · subst h
    simp [new, setSelectedTool, fresh]
  · have h2 : ¬ 0 = tool := fun hh => h hh.symm
    simp [new, setSelectedTool, fresh, h2]

theorem new_inv (tool : Nat) (fileName : Nat → String) :
    Inv { fresh with fileName := fileName, mSelectedTool := tool } := by
  refine ⟨⟨List.Forall₂.nil, List.nodup_nil, by simp [fresh], Or.inl ⟨rfl, rfl⟩, fun _ _ => ⟨rfl, rfl⟩,
    by simp [fresh], ⟨rfl, rfl⟩, fun hh => absurd rfl hh, fun p sc hp _ => by simp [fresh] at hp,
    by simp [fresh], rfl, fun p => by simp [fresh, callsOn, StartsWithEnable],
    fun p => by simp [fresh, callsOn, NoRepeatedEnable],
    fun p => by simp [fresh, callsOn], fun hh => absurd rfl hh, by simp [fresh]⟩, ?_, ?_, ?_⟩
  · simp [currentMapScene, currentMapView, QTabWidget.currentWidget, fresh]
  · intro d hd hne
    simp [currentDocument, fresh] at hd
    exact absurd hd.symm hne
  · intro hh
    exact absurd rfl hh

/-! ## The invariants hold in every reachable state -/

theorem ReachableBy.inv {toolOk : Nat → Prop} {s : DocumentManager}
    (h : ReachableBy toolOk s) : Inv s := by
  induction h with
  | construct tool fileName s hs =>
    rw [new_eq] at hs
    cases hs
    exact new_inv tool fileName
  | addDocument d s s' _ hs ih => exact addDocument_inv ih d hs
  | switchToDocument index s s' _ hs ih => exact switchToDocument_inv ih index hs
  | closeCurrentDocument s s' _ hs ih => exact closeCurrentDocument_inv ih hs
  | closeAllDocuments fuel n s s' _ hs ih => exact (closeAllDocuments_inv fuel s s' n ih hs).1
  | setSelectedTool tool s s' _ _ hs ih => exact setSelectedTool_inv ih tool hs
  | renameDocument d name s s' _ hs ih => exact renameDocument_inv ih d name hs

theorem addDocument_strict {s s' : DocumentManager} (h : Inv s)
    (hst : Strict s) (d : Nat) (hs : s.addDocument d = some s') : Strict s' := by
  obtain ⟨hd0, hd⟩ := addDocument_pre hs
  rw [addDocument_eq h d hd0 hd] at hs
  cases hs
  exact slotResult_strict (addedState_sync h.toSync d hd0 hd) (addedState_currentIs h.toSync d hd0)
    hst.alternates hst.lastEnable

theorem switchToDocument_strict {s s' : DocumentManager} (h : Inv s)
    (hst : Strict s) (index : Int) (hs : s.switchToDocument index = some s') : Strict s' := by
  by_cases hc : s.mTabWidget.validIndex index = true ∧ s.mTabWidget.currentIndex ≠ index
  · obtain ⟨d, scene, hcur, heq⟩ := switchToDocument_changed h.toSync index hc.1 hc.2
    rw [heq] at hs
    cases hs
    exact slotResult_strict (withCurrentIndex_sync h.toSync index hc.1) hcur
      hst.alternates hst.lastEnable
  · rw [switchToDocument_same index hc] at hs
    cases hs
    exact hst

theorem closeCurrentDocument_strict {s s' : DocumentManager} (h : Inv s)
    (hst : Strict s) (hs : s.closeCurrentDocument = some s') : Strict s' := by
  have hinv := closeCurrentDocument_inv h hs
  rcases h.index with ⟨hi, _⟩ | ⟨h0, _⟩
  · rw [closeCurrentDocument_none s hi] at hs
    cases hs
    exact hst
  · obtain ⟨d0, t0, d, scene, _, _, _, _, _, _, hc, heq⟩ := closeCurrentDocument_eq h h0
    rw [heq] at hs
    cases hs
    have h2 := slotResult_strict (closingState_sync h h0) hc hst.alternates hst.lastEnable
    refine ⟨h2.alternates, h2.lastEnable, ?_⟩
    intro hsw
    have hlive := hinv.held hsw
    obtain ⟨sc, hsc, htool⟩ := h2.toolSet hsw
    refine ⟨sc, ?_, htool⟩
    rw [← hsc]
    simp only [deleteMapDocument, deletedState] at hlive ⊢
    by_cases hp : ((closingState s).slotResult d scene).mSceneWithTool = s.mSceneWithTool
    · rw [hp, Function.update_same] at hlive
      simp at hlive
    · rw [Function.update_noteq hp]

theorem closeAllDocuments_strict (fuel : Nat) :
    ∀ (s s' : DocumentManager) (n : Nat), Inv s → Strict s →
      closeAllDocuments fuel s = some (s', n) → Strict s' := by
  induction fuel with
  | zero =>
    intro s s' n _ hst hs
    unfold closeAllDocuments at hs
    by_cases he : s.mDocuments.isEmpty = true
    · simp [he] at hs
      rw [← hs.1]
      exact hst
    · simp [he] at hs
  | succ fuel ih =>
    intro s s' n h hst hs
    unfold closeAllDocuments at hs
    by_cases he : s.mDocuments.isEmpty = true
    · simp [he] at hs
      rw [← hs.1]
      exact hst
    · simp only [he] at hs
      cases hc : s.closeCurrentDocument with
      | none => simp [hc] at hs
      | some s1 =>
        cases hl : closeAllDocuments fuel s1 with
        | none => simp [hc, hl] at hs
        | some r =>
          obtain ⟨s2, m⟩ := r
          simp [hc, hl] at hs
          rw [← hs.1]
          exact ih s1 s2 m (closeCurrentDocument_inv h hc) (closeCurrentDocument_strict h hst hc) hl

theorem renameDocument_strict {s s' : DocumentManager} (hst : Strict s) (d : Nat)
    (name : String) (hs : s.renameDocument d name = some s') : Strict s' := by
  by_cases hd : d = 0
  · simp [renameDocument, documentFileNameChanged, hd] at hs
  · rw [renameDocument_eq s d name hd] at hs
    cases hs
    exact ⟨hst.alternates, hst.lastEnable, hst.toolSet⟩

theorem ReachableBy.strict {s : DocumentManager}
    (h : ReachableBy (fun tool => tool ≠ 0) s) : Strict s := by
  induction h with
  | construct tool fileName s hs =>
    rw [new_eq] at hs
    cases hs
    exact ⟨fun p => by simp [fresh, callsOn, Alternates], fun hh => absurd rfl hh,
      fun hh => absurd rfl hh⟩
  | addDocument d s s' hr hs ih => exact addDocument_strict hr.inv ih d hs
  | switchToDocument index s s' hr hs ih => exact switchToDocument_strict hr.inv ih index hs
  | closeCurrentDocument s s' hr hs ih => exact closeCurrentDocument_strict hr.inv ih hs
  | closeAllDocuments fuel n s s' hr hs ih =>
    exact closeAllDocuments_strict fuel s s' n hr.inv ih hs
  | setSelectedTool tool s s' hr ht hs ih => exact setSelectedTool_strict hr.inv ih tool ht hs
  | renameDocument d name s s' _ hs ih => exact renameDocument_strict ih d name hs

/-! ## The undo group -/

theorem undoStack_mem_map (l : List Nat) (d : Nat) :
    MapDocument.undoStack d ∈ l.map MapDocument.undoStack ↔ d ∈ l := by
  simp [MapDocument.undoStack]

theorem filter_map_eraseIdx {l : List Nat} (hn : l.Nodup) (i a : Nat) (hi : l[i]? = some a) :
    (l.map MapDocument.undoStack).filter (fun m => decide (m ≠ MapDocument.undoStack a)) =
      (l.eraseIdx i).map MapDocument.undoStack := by
  induction l generalizing i with
  | nil => simp at hi
  | cons x xs ih =>
    have hx := List.nodup_cons.mp hn
    cases i with
    | zero =>
      simp at hi
      subst hi
      simp only [List.map_cons, List.eraseIdx_cons_zero]
      rw [List.filter_cons_of_neg (by simp)]
      rw [List.filter_eq_self]
      intro m hm
      simp only [List.mem_map] at hm
      obtain ⟨b, hb, rfl⟩ := hm
      have : b ≠ x := fun hh => hx.1 (hh ▸ hb)
      simpa [MapDocument.undoStack] using this
    | succ n =>
      simp at hi
      have hxa : x ≠ a := fun hh => hx.1 (hh ▸ List.getElem?_mem hi)
      simp only [List.map_cons, List.eraseIdx_cons_succ]
      rw [List.filter_cons_of_pos (by simpa [MapDocument.undoStack] using hxa)]
      rw [ih hx.2 n hi]

theorem slotResult_members (s : DocumentManager) (d scene : Nat) :
    (slotResult s d scene).mUndoGroup.members = s.mUndoGroup.members := by
  simp only [slotResult]
  split_ifs
  · unfold QUndoGroup.setActiveStack
    split_ifs <;> rfl
  · rfl

theorem slotResult_undoExact {s : DocumentManager} {d scene : Nat}
    (hc : CurrentIs s d scene) (h : UndoExact s) : UndoExact (slotResult s d scene) := by
  refine ⟨?_, ?_⟩
  · rw [slotResult_members]
    exact h.members
  · intro hnil
    have hnil2 : s.mDocuments = [] := hnil
    have hd : d = 0 := by
      by_contra hne
      have := hc.docAt hne
      rw [hnil2] at this
      simp at this
    simp only [slotResult, hd, ne_eq, not_true_eq_false, if_false]
    exact h.idle hnil2

theorem addDocument_undoExact {s s' : DocumentManager} (h : Inv s) (hu : UndoExact s) (d : Nat)
    (hs : s.addDocument d = some s') : UndoExact s' := by
  obtain ⟨hd0, hd⟩ := addDocument_pre hs
  rw [addDocument_eq h d hd0 hd] at hs
  cases hs
  refine slotResult_undoExact (addedState_currentIs h.toSync d hd0) ⟨?_, ?_⟩
  · have hnm : MapDocument.undoStack d ∉ s.mUndoGroup.members := by
      rw [hu.members, undoStack_mem_map]
      exact hd
    have hnm2 : MapDocument.undoStack d ∉ s.mDocuments.map MapDocument.undoStack := by
      rw [undoStack_mem_map]
      exact hd
    simp only [addedState, QUndoGroup.addStack, hu.members, hnm2, if_false, List.map_append,
      List.map_cons, List.map_nil]
  · intro hnil
    simp [addedState] at hnil

theorem switchToDocument_undoExact {s s' : DocumentManager} (h : Inv s) (hu : UndoExact s)
    (index : Int) (hs : s.switchToDocument index = some s') : UndoExact s' := by
  by_cases hc : s.mTabWidget.validIndex index = true ∧ s.mTabWidget.currentIndex ≠ index
  · obtain ⟨d, scene, hcur, heq⟩ := switchToDocument_changed h.toSync index hc.1 hc.2
    rw [heq] at hs
    cases hs
    exact slotResult_undoExact hcur ⟨hu.members, hu.idle⟩
  · rw [switchToDocument_same index hc] at hs
    cases hs
    exact hu

theorem closeCurrentDocument_undoExact {s s' : DocumentManager} (h : Inv s) (hu : UndoExact s)
    (hs : s.closeCurrentDocument = some s') : UndoExact s' := by
  rcases h.index with ⟨hi, _⟩ | ⟨h0, _⟩
  · rw [closeCurrentDocument_none s hi] at hs
    cases hs
    exact hu
  · obtain ⟨d0, t0, d, scene, hd0, _, _, _, _, _, hc, heq⟩ := closeCurrentDocument_eq h h0
    rw [heq] at hs
    cases hs
    have hd0ne : d0 ≠ 0 := fun hh => h.nonnull (hh ▸ List.getElem?_mem hd0)
    have hmem : MapDocument.undoStack d0 ∈ s.mUndoGroup.members :=
      h.undo d0 (List.getElem?_mem hd0)
    have hm2 : MapDocument.undoStack d0 ∈ ((closingState s).slotResult d scene).mUndoGroup.members := by
      rw [slotResult_members]
      exact hmem
    have hmembers : ((closingState s).slotResult d scene).mUndoGroup.members
        = s.mDocuments.map MapDocument.undoStack := by
      rw [slotResult_members]
      exact hu.members
    refine ⟨?_, ?_⟩
    · simp only [deleteMapDocument, deletedState, QUndoGroup.removeStack, hm2, if_true]
      rw [hmembers, filter_map_eraseIdx h.nodup _ _ hd0]
      rfl
    · intro hnil
      have hnil2 : (closingState s).mDocuments = [] := hnil
      have hd : d = 0 := by
        by_contra hne
        have := hc.docAt hne
        rw [hnil2] at this
        simp at this
      have hat : s.currentDocument = some d0 := by
        have hneg : ¬ s.mTabWidget.currentIndex < 0 := by omega
        have hne1 : s.mTabWidget.currentIndex ≠ -1 := by omega
        simp [currentDocument, hne1, QList.at, hneg, hd0]
      have hact := h.active d0 hat hd0ne
      have hact2 : ((closingState s).slotResult d scene).mUndoGroup.activeStack
          = some (MapDocument.undoStack d0) := by
        simp only [slotResult, hd, ne_eq, not_true_eq_false, if_false]
        exact hact
      simp only [deleteMapDocument, deletedState, QUndoGroup.removeStack, hm2, if_true, hact2]

theorem closeAllDocuments_undoExact (fuel : Nat) :
    ∀ (s s' : DocumentManager) (n : Nat), Inv s → UndoExact s →
      closeAllDocuments fuel s = some (s', n) → UndoExact s' := by
  induction fuel with
  | zero =>
    intro s s' n _ hst hs
    unfold closeAllDocuments at hs
    by_cases he : s.mDocuments.isEmpty = true
    · simp [he] at hs
      rw [← hs.1]
      exact hst
    · simp [he] at hs
  | succ fuel ih =>
    intro s s' n h hst hs
    unfold closeAllDocuments at hs
    by_cases he : s.mDocuments.isEmpty = true
    · simp [he] at hs
      rw [← hs.1]
      exact hst
    · simp only [he] at hs
      cases hc : s.closeCurrentDocument with
      | none => simp [hc] at hs
      | some s1 =>
        cases hl : closeAllDocuments fuel s1 with
        | none => simp [hc, hl] at hs
        | some r =>
          obtain ⟨s2, m⟩ := r
          simp [hc, hl] at hs
          rw [← hs.1]
          exact ih s1 s2 m (closeCurrentDocument_inv h hc) (closeCurrentDocument_undoExact h hst hc) hl

theorem setSelectedTool_undoExact {s s' : DocumentManager} (h : Inv s) (hu : UndoExact s)
    (tool : Nat) (hs : s.setSelectedTool tool = some s') : UndoExact s' := by
  by_cases hsame : s.mSelectedTool = tool
  · subst hsame
    rw [setSelectedTool_same] at hs
    cases hs
    exact hu
  · by_cases h0 : s.mSceneWithTool = 0
    · rw [setSelectedTool_noScene s tool hsame h0] at hs
      cases hs
      exact ⟨hu.members, hu.idle⟩
    · rw [setSelectedTool_scene s tool hsame h0 (h.held h0)] at hs
      cases hs
      exact ⟨hu.members, hu.idle⟩

theorem renameDocument_undoExact {s s' : DocumentManager} (hu : UndoExact s) (d : Nat)
    (name : String) (hs : s.renameDocument d name = some s') : UndoExact s' := by
  by_cases hd : d = 0
  · simp [renameDocument, documentFileNameChanged, hd] at hs
  · rw [renameDocument_eq s d name hd] at hs
    cases hs
    exact ⟨hu.members, hu.idle⟩

theorem ReachableBy.undoExact {toolOk : Nat → Prop} {s : DocumentManager}
    (h : ReachableBy toolOk s) : UndoExact s := by
  induction h with
  | construct tool fileName s hs =>
    rw [new_eq] at hs
    cases hs
    exact ⟨rfl, fun _ => rfl⟩
  | addDocument d s s' hr hs ih => exact addDocument_undoExact hr.inv ih d hs
  | switchToDocument index s s' hr hs ih => exact switchToDocument_undoExact hr.inv ih index hs
  | closeCurrentDocument s s' hr hs ih => exact closeCurrentDocument_undoExact hr.inv ih hs
  | closeAllDocuments fuel n s s' hr hs ih =>
    exact closeAllDocuments_undoExact fuel s s' n hr.inv ih hs
  | setSelectedTool tool s s' hr _ hs ih => exact setSelectedTool_undoExact hr.inv ih tool hs
  | renameDocument d name s s' _ hs ih => exact renameDocument_undoExact ih d name hs

/-! ## Example states -/

theorem demoStart_reachable (toolOk : Nat → Prop) : ReachableBy toolOk demoStart :=
  ReachableBy.construct 5 (fun _ => "") demoStart (new_eq 5 _)

theorem demoOne_step : demoStart.addDocument 7 = some demoOne :=
  addDocument_eq (demoStart_reachable (fun _ => True)).inv 7 (by decide) (by decide)

theorem demoOne_reachable (toolOk : Nat → Prop) : ReachableBy toolOk demoOne :=
  ReachableBy.addDocument 7 demoStart demoOne (demoStart_reachable toolOk) demoOne_step

/-! ## The claims -/

/-- C1: in every reachable state the document list and the tab widget have the
same length, and for every index `i` the page of tab `i` is a live view whose
scene is live and shows the `i`-th document of the list. -/
theorem C1_list_tab_sync (s : DocumentManager) (h : Reachable s) :
    s.mDocuments.length = s.mTabWidget.tabs.length ∧
    ∀ (i d : Nat), s.mDocuments[i]? = some d →
      ∃ t v sc, s.mTabWidget.tabs[i]? = some t ∧ s.views t.widget = some v ∧
        s.scenes v.scene = some sc ∧ sc.mapDocument = d := by
  have hinv := ReachableBy.inv h
  refine ⟨hinv.tabs.length_eq, ?_⟩
  intro i d hd
  obtain ⟨t, ht, _, v, hv, _, hdoc, _⟩ := forall₂_getElem? hinv.tabs i d hd
  simp only [sceneDocument, Option.map_eq_some'] at hdoc
  obtain ⟨sc, hsc, hmd⟩ := hdoc
  exact ⟨t, v, sc, ht, hv, hsc, hmd⟩

/-- The list and the tabs of `demoOne`, the state with one open document. -/
theorem C1_list_tab_sync_witness :
    Reachable demoOne ∧
    (demoOne.mDocuments.length = demoOne.mTabWidget.tabs.length ∧
      ∀ (i d : Nat), demoOne.mDocuments[i]? = some d →
        ∃ t v sc, demoOne.mTabWidget.tabs[i]? = some t ∧ demoOne.views t.widget = some v ∧
          demoOne.scenes v.scene = some sc ∧ sc.mapDocument = d) :=
  ⟨demoOne_reachable _, C1_list_tab_sync demoOne (demoOne_reachable _)⟩

/-- C2: in a reachable state, `addDocument(d)` with `d` non-null and not open
succeeds, appends `d` to the document list, appends exactly one tab, and makes
`d` current: `currentDocument()` is `d` and the current index is the old number
of documents. -/
theorem C2_addDocument_appends (s : DocumentManager) (d : Nat) (h : Reachable s)
    (hd0 : d ≠ 0) (hd : d ∉ s.mDocuments) :
    ∃ s', s.addDocument d = some s' ∧
      s'.mDocuments = s.mDocuments ++ [d] ∧
      (∃ t, s'.mTabWidget.tabs = s.mTabWidget.tabs ++ [t]) ∧
      s'.currentDocument = some d ∧
      s'.mTabWidget.currentIndex = (s.mDocuments.length : Int) := by
  have hinv := ReachableBy.inv h
  refine ⟨_, addDocument_eq hinv d hd0 hd, rfl, ⟨_, rfl⟩, ?_, rfl⟩
  have := (addedState_currentIs hinv.toSync d hd0).docEq
  simpa [currentDocument, slotResult] using this

/-- Adding document `8` to `demoOne`. -/
theorem C2_addDocument_appends_witness :
    Reachable demoOne ∧ (8 : Nat) ≠ 0 ∧ 8 ∉ demoOne.mDocuments ∧
    ∃ s', demoOne.addDocument 8 = some s' ∧
      s'.mDocuments = demoOne.mDocuments ++ [8] ∧
      (∃ t, s'.mTabWidget.tabs = demoOne.mTabWidget.tabs ++ [t]) ∧
      s'.currentDocument = some 8 ∧
      s'.mTabWidget.currentIndex = (demoOne.mDocuments.length : Int) :=
  ⟨demoOne_reachable _, by decide, by decide,
    C2_addDocument_appends demoOne 8 (demoOne_reachable _) (by decide) (by decide)⟩

theorem documentFileNameChanged_tab {s : DocumentManager} (hn : s.mDocuments.Nodup)
    (hlen : s.mDocuments.length = s.mTabWidget.tabs.length) (sender : Nat) (text : String)
    (i d : Nat) (t : Tab) (hd : s.mDocuments[i]? = some d) (ht : s.mTabWidget.tabs[i]? = some t) :
    (s.mTabWidget.setTabText (QList.indexOf s.mDocuments sender) text).tabs[i]? =
      some (if d = sender then { t with text := text } else t) := by
  obtain ⟨hi, hdi⟩ := List.getElem?_eq_some.mp hd
  by_cases hm : sender ∈ s.mDocuments
  · have hlt : s.mDocuments.indexOf sender < s.mTabWidget.tabs.length := by
      rw [← hlen]
      exact List.indexOf_lt_length.mpr hm
    have hv : s.mTabWidget.validIndex (s.mDocuments.indexOf sender : Int) = true := by
      simp [QTabWidget.validIndex, hlt]
    simp only [QList.indexOf, hm, if_true, QTabWidget.setTabText, hv, Int.toNat_ofNat]
    rw [List.getElem?_modify, ht]
    by_cases hds : d = sender
    · subst hds
      have : s.mDocuments.indexOf d = i := by
        rw [← hdi]
        exact List.indexOf_getElem hn i hi
      simp [this]
    · have : s.mDocuments.indexOf sender ≠ i := by
        intro he
        apply hds
        rw [← hdi]
        have h2 := List.getElem_indexOf (List.indexOf_lt_length.mpr hm)
        simp only [he] at h2
        exact h2
      simp [this, hds]
  · have hv : s.mTabWidget.validIndex (-1) = false := by
      simp [QTabWidget.validIndex]
    have hds : d ≠ sender := fun he => hm (he ▸ List.getElem?_mem hd)
    simp [QList.indexOf, hm, QTabWidget.setTabText, hv, ht, hds]

theorem fileName_lastComponent (path : String) :
    '/' ∉ (QFileInfo.fileName path).data ∧
    ∃ dir : List Char, path.data = dir ++ (QFileInfo.fileName path).data ∧
      (dir = [] ∨ dir.getLast? = some '/') := by
  have hdata : (QFileInfo.fileName path).data =
      (path.data.reverse.takeWhile (fun c => c != '/')).reverse := rfl
  rw [hdata]
  refine ⟨?_, (path.data.reverse.dropWhile (fun c => c != '/')).reverse, ?_, ?_⟩
  · intro hmem
    rw [List.mem_reverse] at hmem
    have := List.mem_takeWhile_imp hmem
    simp at this
  · rw [← List.reverse_append, List.takeWhile_append_dropWhile, List.reverse_reverse]
  · have hhead := List.head?_dropWhile_not (fun c => c != '/') path.data.reverse
    cases hdw : path.data.reverse.dropWhile (fun c => c != '/') with
    | nil => left; rfl
    | cons x xs =>
      right
      rw [hdw] at hhead
      simp at hhead
      rw [List.getLast?_reverse]
      simp [hhead]

/-- C3: in every reachable state (renames of documents, each followed by the
document's `fileNameChanged` signal, included) the text of tab `i` is the last
path component of the file name of the `i`-th document, or `untitled.tmx` when
that component is empty.  When the documents of a reachable state have got any
file names `fileName` and the slot has not run yet, `documentFileNameChanged`
for a non-null sender completes, gives the tab of the sender the title that
belongs to the sender's new file name and leaves every other tab, the document
list and the current index as they are.  The last path component of a path
contains no `/`, and what precedes it in the path is empty or ends in `/`. -/
theorem C3_tab_titles (s : DocumentManager) (h : Reachable s) :
    (∀ (i d : Nat), s.mDocuments[i]? = some d →
      ∃ t, s.mTabWidget.tabs[i]? = some t ∧
        t.text = (if (QFileInfo.fileName (s.fileName d)).isEmpty then "untitled.tmx"
          else QFileInfo.fileName (s.fileName d))) ∧
    (∀ (fileName : Nat → String) (sender : Nat), sender ≠ 0 →
      ∃ s', documentFileNameChanged sender { s with fileName := fileName } = some s' ∧
        s'.mDocuments = s.mDocuments ∧
        s'.mTabWidget.currentIndex = s.mTabWidget.currentIndex ∧
        s'.mTabWidget.tabs.length = s.mTabWidget.tabs.length ∧
        ∀ (i d : Nat) (t : Tab), s.mDocuments[i]? = some d → s.mTabWidget.tabs[i]? = some t →
          s'.mTabWidget.tabs[i]? =
            some (if d = sender then
              { t with text :=
                  if (QFileInfo.fileName (fileName sender)).isEmpty then "untitled.tmx"
                  else QFileInfo.fileName (fileName sender) }
              else t)) ∧
    (∀ path : String, '/' ∉ (QFileInfo.fileName path).data ∧
      ∃ dir : List Char, path.data = dir ++ (QFileInfo.fileName path).data ∧
        (dir = [] ∨ dir.getLast? = some '/')) := by
  have hinv := ReachableBy.inv h
  refine ⟨?_, ?_, fileName_lastComponent⟩
  · intro i d hd
    obtain ⟨t, ht, _, v, _, _, _, htext⟩ := forall₂_getElem? hinv.tabs i d hd
    refine ⟨t, ht, ?_⟩
    rw [htext]
    simp only [tabTitle, hinv.untitled, tr]
  · intro fileName sender h0
    refine ⟨{ s with
        fileName := fileName
        mTabWidget := s.mTabWidget.setTabText (QList.indexOf s.mDocuments sender)
          (tabTitle { s with fileName := fileName } sender) },
      by simp only [documentFileNameChanged, h0, if_false], rfl,
      setTabText_currentIndex _ _ _, ?_, ?_⟩
    · simp only [QTabWidget.setTabText]
      split_ifs <;> simp
    · intro i d t hd ht
      have htitle : tabTitle { s with fileName := fileName } sender =
          (if (QFileInfo.fileName (fileName sender)).isEmpty then "untitled.tmx"
            else QFileInfo.fileName (fileName sender)) := by
        simp only [tabTitle, hinv.untitled, tr]
      rw [← htitle]
      exact documentFileNameChanged_tab (s := { s with fileName := fileName }) hinv.nodup
        hinv.tabs.length_eq sender _ i d t hd ht

theorem demoRenamed_reachable : Reachable demoRenamed :=
  ReachableBy.renameDocument 7 "/maps/level1.tmx" demoOne demoRenamed (demoOne_reachable _)
    (renameDocument_eq demoOne 7 _ (by decide))

/-- The tab of `demoRenamed` reads `level1.tmx`; the slot gives the untitled tab
of `demoOne` that text once document `7` is named `/maps/level1.tmx`. -/
theorem C3_tab_titles_witness :
    Reachable demoRenamed ∧ demoRenamed.mDocuments[0]? = some 7 ∧
    (∃ t, demoRenamed.mTabWidget.tabs[0]? = some t ∧ t.text = "level1.tmx") ∧
    Reachable demoOne ∧
    demoOne.mTabWidget.tabs[0]? = some ⟨1, "untitled.tmx", ""⟩ ∧
    (∃ s', documentFileNameChanged 7
        { demoOne with fileName := fun _ => "/maps/level1.tmx" } = some s' ∧
      s'.mTabWidget.tabs[0]? = some ⟨1, "level1.tmx", ""⟩) ∧
    QFileInfo.fileName "/maps/level1.tmx" = "level1.tmx" := by
  refine ⟨demoRenamed_reachable, by decide, ?_, demoOne_reachable _, by decide, ?_, by decide⟩
  · obtain ⟨t, ht, htext⟩ :=
      (C3_tab_titles demoRenamed demoRenamed_reachable).1 0 7 (by decide)
    exact ⟨t, ht, htext.trans (by decide)⟩
  · obtain ⟨s', hs', _, _, _, htabs⟩ :=
      (C3_tab_titles demoOne (demoOne_reachable _)).2.1 (fun _ => "/maps/level1.tmx") 7
        (by decide)
    refine ⟨s', hs', ?_⟩
    rw [htabs 0 7 ⟨1, "untitled.tmx", ""⟩ (by decide) (by decide)]
    decide

theorem demoPair_step : demoOne.addDocument 8 = some demoPair :=
  addDocument_eq (demoOne_reachable (fun _ => True)).inv 8 (by decide) (by decide)

theorem demoPair_reachable (toolOk : Nat → Prop) : ReachableBy toolOk demoPair :=
  ReachableBy.addDocument 8 demoOne demoPair (demoOne_reachable toolOk) demoPair_step

theorem demoRetooled_step : demoPair.setSelectedTool 6 = some demoRetooled :=
  setSelectedTool_scene demoPair 6 (by decide) (by decide) (by decide)

theorem demoRetooled_reachable : ReachableNonNull demoRetooled :=
  ReachableBy.setSelectedTool 6 demoPair demoRetooled (demoPair_reachable _) (by decide)
    demoRetooled_step

theorem demoRetooled_reachableAny : Reachable demoRetooled :=
  ReachableBy.setSelectedTool 6 demoPair demoRetooled (demoPair_reachable _) trivial
    demoRetooled_step

/-- C4: in every reachable state with a current document, the undo stack of
every open document is a member of the undo group and the active stack of the
group is the undo stack of `currentDocument()`; in particular this holds in the
state left by `addDocument`, by `switchToDocument` and by
`closeCurrentDocument` whenever a document is current there.  The members of
the group are exactly the undo stacks of the open documents, in their order:
the stack of a closed document leaves the group when the document is deleted,
and the group has no active stack when no document is open. -/
theorem C4_undo_follows_current (s : DocumentManager) (h : Reachable s) :
    (∀ d, s.currentDocument = some d → d ≠ 0 →
      (∀ a ∈ s.mDocuments, MapDocument.undoStack a ∈ s.mUndoGroup.members) ∧
      s.mUndoGroup.activeStack = some (MapDocument.undoStack d)) ∧
    (∀ (s' : DocumentManager),
      ((∃ a, s.addDocument a = some s') ∨ (∃ index, s.switchToDocument index = some s') ∨
        s.closeCurrentDocument = some s') →
      (∀ d, s'.currentDocument = some d → d ≠ 0 →
        (∀ a ∈ s'.mDocuments, MapDocument.undoStack a ∈ s'.mUndoGroup.members) ∧
        s'.mUndoGroup.activeStack = some (MapDocument.undoStack d)) ∧
      s'.mUndoGroup.members = s'.mDocuments.map MapDocument.undoStack) ∧
    s.mUndoGroup.members = s.mDocuments.map MapDocument.undoStack ∧
    (s.mDocuments = [] → s.mUndoGroup.activeStack = none) := by
  have key : ∀ t : DocumentManager, Inv t → ∀ d, t.currentDocument = some d → d ≠ 0 →
      (∀ a ∈ t.mDocuments, MapDocument.undoStack a ∈ t.mUndoGroup.members) ∧
      t.mUndoGroup.activeStack = some (MapDocument.undoStack d) :=
    fun t ht d hd hne => ⟨ht.undo, ht.active d hd hne⟩
  have hinv := ReachableBy.inv h
  have hu := ReachableBy.undoExact h
  refine ⟨key s hinv, ?_, hu.members, hu.idle⟩
  intro s' hop
  rcases hop with ⟨a, ha⟩ | ⟨index, hi⟩ | hc
  · exact ⟨key s' (addDocument_inv hinv a ha), (addDocument_undoExact hinv hu a ha).members⟩
  · exact ⟨key s' (switchToDocument_inv hinv index hi),
      (switchToDocument_undoExact hinv hu index hi).members⟩
  · exact ⟨key s' (closeCurrentDocument_inv hinv hc),
      (closeCurrentDocument_undoExact hinv hu hc).members⟩

/-- Closing the current document `8` of `demoPair` leaves document `7` current
with its stack the only member and active; closing the only document of
`demoOne` empties the group; closing the middle one of three documents leaves
the stacks of the other two. -/
theorem C4_undo_follows_current_witness :
    Reachable demoPair ∧ demoPair.currentDocument = some 8 ∧
    demoPair.mUndoGroup = ⟨[⟨7⟩, ⟨8⟩], some ⟨8⟩⟩ ∧
    (∃ s', demoPair.closeCurrentDocument = some s' ∧ s'.currentDocument = some 7 ∧
      s'.mUndoGroup = ⟨[⟨7⟩], some ⟨7⟩⟩ ∧
      (∀ a ∈ s'.mDocuments, MapDocument.undoStack a ∈ s'.mUndoGroup.members) ∧
      s'.mUndoGroup.activeStack = some (MapDocument.undoStack 7)) ∧
    (demoOne.closeCurrentDocument).map (fun s => s.mUndoGroup) = some ⟨[], none⟩ ∧
    ((((demoPair.addDocument 9).bind (switchToDocument 1)).bind closeCurrentDocument).map
      (fun s => (s.mDocuments, s.mUndoGroup))) = some ([7, 9], ⟨[⟨7⟩, ⟨9⟩], some ⟨9⟩⟩) := by
  refine ⟨demoPair_reachable _, by decide, by decide, ?_, by decide, by decide⟩
  obtain ⟨s', hs'⟩ := closeCurrentDocument_total (demoPair_reachable (fun _ => True)).inv
  have hval : (demoPair.closeCurrentDocument).map (fun s => (s.currentDocument, s.mUndoGroup)) =
      some (some 7, ⟨[⟨7⟩], some ⟨7⟩⟩) := by decide
  rw [hs'] at hval
  simp only [Option.map_some', Option.some.injEq, Prod.mk.injEq] at hval
  exact ⟨s', hs', hval.1, hval.2,
    ((C4_undo_follows_current demoPair (demoPair_reachable _)).2.1 s' (Or.inr (Or.inr hs'))).1 7
      hval.1 (by decide)⟩

theorem slotResult_old {s : DocumentManager} {d scene : Nat} (h0 : s.mSceneWithTool ≠ 0)
    (hne : scene ≠ s.mSceneWithTool) :
    (callsOn s.mSceneWithTool (slotResult s d scene).sceneCalls).getLast? = some SceneCall.disable ∧
    ∀ sc, (slotResult s d scene).scenes s.mSceneWithTool = some sc → sc.toolEnabled = false := by
  constructor
  · rw [slotResult_callsOn]
    have h1 : ¬ (scene ≠ 0 ∧ scene = s.mSceneWithTool) := fun hh => hne hh.2
    simp [h0, h1]
  · intro sc hsc
    have h1 : ¬ (s.mSceneWithTool = scene ∧ scene ≠ 0) := fun hh => hne hh.1.symm
    simp only [slotResult, h1, if_false, h0, ne_eq, not_false_eq_true, and_self, if_true,
      Option.map_eq_some'] at hsc
    obtain ⟨a, _, ha⟩ := hsc
    rw [← ha]

theorem nodup_getElem?_inj {l : List Nat} (hn : l.Nodup) {i j a : Nat}
    (hi : l[i]? = some a) (hj : l[j]? = some a) : i = j := by
  obtain ⟨h1, h2⟩ := List.getElem?_eq_some.mp hi
  obtain ⟨h3, h4⟩ := List.getElem?_eq_some.mp hj
  have e1 := List.indexOf_getElem hn i h1
  have e2 := List.indexOf_getElem hn j h3
  rw [h2] at e1
  rw [h4] at e2
  omega

theorem Inv.noTabs {s : DocumentManager} (h : Inv s) (ht : s.mTabWidget.tabs = []) :
    s.mSceneWithTool = 0 := by
  have hcur := h.current
  simp only [currentMapScene, currentMapView, QTabWidget.currentWidget, ht] at hcur
  by_cases hneg : s.mTabWidget.currentIndex < 0
  · simp [hneg] at hcur
    exact hcur.symm
  · simp [hneg] at hcur
    exact hcur.symm

theorem addDocument_toolMoved {s s' : DocumentManager} (h : Inv s) (d : Nat)
    (hs : s.addDocument d = some s') : ToolMoved s s' := by
  have hinv := addDocument_inv h d hs
  obtain ⟨hd0, hd⟩ := addDocument_pre hs
  rw [addDocument_eq h d hd0 hd] at hs
  cases hs
  have hc := addedState_currentIs h.toSync d hd0
  refine ⟨?_, fun hh => slotResult_toolSet hc hh, hinv.current, hinv.noTabs⟩
  intro h0
  have hlt := (h.live_lt s.mSceneWithTool).2 (by
    intro hn
    have := h.held h0
    rw [hn] at this
    simp at this)
  have h0' : (addedState s d).mSceneWithTool ≠ 0 := h0
  have hne : s.nextAddr + 1 ≠ (addedState s d).mSceneWithTool := by
    show s.nextAddr + 1 ≠ s.mSceneWithTool
    omega
  exact slotResult_old (d := d) h0' hne

theorem switchToDocument_toolMoved {s s' : DocumentManager} (h : Inv s) (index : Int)
    (hs : s.switchToDocument index = some s')
    (hchg : s.mTabWidget.validIndex index = true ∧ s.mTabWidget.currentIndex ≠ index) :
    ToolMoved s s' := by
  have hinv := switchToDocument_inv h index hs
  obtain ⟨d, scene, hc, heq⟩ := switchToDocument_changed h.toSync index hchg.1 hchg.2
  rw [heq] at hs
  cases hs
  refine ⟨?_, fun hh => slotResult_toolSet hc hh, hinv.current, hinv.noTabs⟩
  intro h0
  have h0' : (withCurrentIndex s index).mSceneWithTool ≠ 0 := h0
  refine slotResult_old (d := d) h0' ?_
  show scene ≠ s.mSceneWithTool
  intro he
  obtain ⟨d1, sc1, hc1⟩ := h.toSync.currentIs
  have hsw : s.mSceneWithTool = sc1 := by
    have := h.current
    rw [hc1.sceneEq] at this
    exact (Option.some.inj this).symm
  have hscene : scene ≠ 0 := he ▸ h0
  have hsc1 : sc1 ≠ 0 := hsw ▸ h0
  have hd : d ≠ 0 := fun hh => hscene (hc.sceneNull.mpr (hc.docNull.mp hh))
  have hd1 : d1 ≠ 0 := fun hh => hsc1 (hc1.sceneNull.mpr (hc1.docNull.mp hh))
  have e1 := hc.shows hscene
  have e2 := hc1.shows hsc1
  have e3 : (withCurrentIndex s index).sceneDocument scene = s.sceneDocument sc1 := by
    rw [he, hsw]; rfl
  have hdd : d = d1 := by
    rw [e3, e2] at e1
    exact (Option.some.inj e1).symm
  have a1 := hc.docAt hd
  have a2 := hc1.docAt hd1
  rw [hdd] at a1
  have hij : index.toNat = s.mTabWidget.currentIndex.toNat := nodup_getElem?_inj h.nodup a1 a2
  have hv := hchg.1
  simp only [QTabWidget.validIndex, Bool.and_eq_true, decide_eq_true_eq] at hv
  have hne := hchg.2
  rcases h.index with ⟨_, hnil⟩ | ⟨hge, _⟩
  · rw [hnil] at a2
    simp at a2
  · omega

theorem closeCurrentDocument_toolMoved {s s' : DocumentManager} (h : Inv s)
    (hs : s.closeCurrentDocument = some s') (h0 : 0 ≤ s.mTabWidget.currentIndex) :
    ToolMoved s s' := by
  have hinv := closeCurrentDocument_inv h hs
  obtain ⟨d0, t0, d, scene, hd0, _, _, hsw0, _, hsd0, hc, heq⟩ := closeCurrentDocument_eq h h0
  rw [heq] at hs
  cases hs
  refine ⟨?_, ?_, hinv.current, hinv.noTabs⟩
  · intro _
    have h0' : (closingState s).mSceneWithTool ≠ 0 := hsw0
    have hne : scene ≠ (closingState s).mSceneWithTool := by
      show scene ≠ s.mSceneWithTool
      intro he
      have hscene : scene ≠ 0 := he ▸ hsw0
      have hd : d ≠ 0 := fun hh => hscene (hc.sceneNull.mpr (hc.docNull.mp hh))
      have e1 := hc.shows hscene
      have e3 : (closingState s).sceneDocument scene = s.sceneDocument s.mSceneWithTool := by
        rw [he]; rfl
      rw [e3, hsd0] at e1
      have hdd : d0 = d := Option.some.inj e1
      have hmem := List.getElem?_mem (hc.docAt hd)
      rw [← hdd] at hmem
      exact mem_eraseIdx_of_nodup h.nodup _ _ hd0 hmem
    obtain ⟨hlast, _⟩ := slotResult_old (d := d) h0' hne
    refine ⟨hlast, ?_⟩
    intro sc hsc
    simp only [deleteMapDocument, deletedState] at hsc
    rw [Function.update_same] at hsc
    cases hsc
  · intro hne
    have hne2 : scene ≠ 0 := hne
    obtain ⟨sc, hsc, htool, hen⟩ := slotResult_toolSet hc hne2
    refine ⟨sc, ?_, htool, hen⟩
    have hlive := hinv.held hne
    simp only [deleteMapDocument, deletedState] at hlive ⊢
    by_cases hp : ((closingState s).slotResult d scene).mSceneWithTool = s.mSceneWithTool
    · rw [hp, Function.update_same] at hlive
      simp at hlive
    · rw [Function.update_noteq hp]
      exact hsc

/-- C5: when `addDocument`, `switchToDocument` or `closeCurrentDocument` run in a
reachable state make another tab (or none) current, the last call on the scene
that held the tool is `disableSelectedTool` and that scene, if still live, no
longer has the tool enabled; the recorded scene, when non-null, has the
manager's selected tool set and enabled; the recorded scene is the scene of the
current tab and is null when no tab is left.  In every reachable state at most
one scene has the tool enabled, and the recorded scene, when non-null, is a
live scene that shows an open document. -/
theorem C5_tool_follows_current (s : DocumentManager) (h : Reachable s) :
    (∀ (s' : DocumentManager),
      ((∃ a, s.addDocument a = some s') ∨ (∃ index, s.switchToDocument index = some s') ∨
        s.closeCurrentDocument = some s') →
      s'.currentMapView ≠ s.currentMapView →
      (s.mSceneWithTool ≠ 0 →
        (callsOn s.mSceneWithTool s'.sceneCalls).getLast? = some SceneCall.disable ∧
        ∀ sc, s'.scenes s.mSceneWithTool = some sc → sc.toolEnabled = false) ∧
      (s'.mSceneWithTool ≠ 0 →
        ∃ sc, s'.scenes s'.mSceneWithTool = some sc ∧ sc.selectedTool = s'.mSelectedTool ∧
          sc.toolEnabled = true) ∧
      s'.currentMapScene = some s'.mSceneWithTool ∧
      (s'.mTabWidget.tabs = [] → s'.mSceneWithTool = 0)) ∧
    (∀ (p q : Nat) (scp scq : MapScene), s.scenes p = some scp → scp.toolEnabled = true →
      s.scenes q = some scq → scq.toolEnabled = true → p = q) ∧
    (s.mSceneWithTool ≠ 0 →
      ∃ sc, s.scenes s.mSceneWithTool = some sc ∧ sc.mapDocument ∈ s.mDocuments) := by
  have hinv := ReachableBy.inv h
  refine ⟨?_, ?_, ?_⟩
  · intro s' hop hview
    rcases hop with ⟨a, ha⟩ | ⟨index, hi⟩ | hc
    · exact addDocument_toolMoved hinv a ha
    · by_cases hchg : s.mTabWidget.validIndex index = true ∧ s.mTabWidget.currentIndex ≠ index
      · exact switchToDocument_toolMoved hinv index hi hchg
      · rw [switchToDocument_same index hchg] at hi
        cases hi
        exact absurd rfl hview
    · rcases hinv.index with ⟨hneg, _⟩ | ⟨h0, _⟩
      · rw [closeCurrentDocument_none s hneg] at hc
        cases hc
        exact absurd rfl hview
      · exact closeCurrentDocument_toolMoved hinv hc h0
  · intro p q scp scq hp hpe hq hqe
    rw [hinv.enabled p scp hp hpe, hinv.enabled q scq hq hqe]
  · intro hsw
    obtain ⟨d, scene, hc⟩ := hinv.toSync.currentIs
    have hswt : s.mSceneWithTool = scene := by
      have := hinv.current
      rw [hc.sceneEq] at this
      exact (Option.some.inj this).symm
    have hscene : scene ≠ 0 := hswt ▸ hsw
    have hd : d ≠ 0 := fun hh => hscene (hc.sceneNull.mpr (hc.docNull.mp hh))
    have hshow := hc.shows hscene
    simp only [sceneDocument, Option.map_eq_some'] at hshow
    obtain ⟨sc, hsc, hmd⟩ := hshow
    refine ⟨sc, hswt ▸ hsc, ?_⟩
    rw [hmd]
    exact List.getElem?_mem (hc.docAt hd)

/-- The step from `demoOne` to `demoPair`: scene `2` held the tool and is
disabled, scene `4` of the new current tab gets the tool. -/
theorem C5_tool_follows_current_witness :
    Reachable demoOne ∧ demoOne.addDocument 8 = some demoPair ∧
    demoPair.currentMapView ≠ demoOne.currentMapView ∧
    demoOne.mSceneWithTool = 2 ∧ demoPair.mSceneWithTool = 4 ∧
    ((callsOn 2 demoPair.sceneCalls).getLast? = some SceneCall.disable ∧
      ∀ sc, demoPair.scenes 2 = some sc → sc.toolEnabled = false) ∧
    (∃ sc, demoPair.scenes 4 = some sc ∧
      sc.selectedTool = demoPair.mSelectedTool ∧ sc.toolEnabled = true) ∧
    demoPair.currentMapScene = some 4 ∧
    (∀ (p q : Nat) (scp scq : MapScene), demoPair.scenes p = some scp →
      scp.toolEnabled = true → demoPair.scenes q = some scq → scq.toolEnabled = true → p = q) :=
  ⟨demoOne_reachable _, demoPair_step, by decide, by decide, by decide,
    ((C5_tool_follows_current demoOne (demoOne_reachable _)).1 demoPair
      (Or.inl ⟨8, demoPair_step⟩) (by decide)).1 (by decide),
    ((C5_tool_follows_current demoOne (demoOne_reachable _)).1 demoPair
      (Or.inl ⟨8, demoPair_step⟩) (by decide)).2.1 (by decide),
    ((C5_tool_follows_current demoOne (demoOne_reachable _)).1 demoPair
      (Or.inl ⟨8, demoPair_step⟩) (by decide)).2.2.1,
    (C5_tool_follows_current demoPair (demoPair_reachable _)).2.1⟩

/-- C6: `closeCurrentDocument` leaves the whole state as it is when no tab is
current (index `-1`); in a reachable state with current index `i` it succeeds,
the new document list is the old one without its `i`-th entry, the tab list
loses its `i`-th tab, and both lengths decrease by exactly one. -/
theorem C6_closeCurrentDocument_removes (s : DocumentManager) (h : Reachable s) :
    (s.mTabWidget.currentIndex = -1 → s.closeCurrentDocument = some s) ∧
    (∀ i : Nat, s.mTabWidget.currentIndex = (i : Int) →
      ∃ s', s.closeCurrentDocument = some s' ∧
        s'.mDocuments = s.mDocuments.eraseIdx i ∧
        s'.mTabWidget.tabs = s.mTabWidget.tabs.eraseIdx i ∧
        s'.mDocuments.length + 1 = s.mDocuments.length ∧
        s'.mTabWidget.tabs.length + 1 = s.mTabWidget.tabs.length) := by
  have hinv := ReachableBy.inv h
  refine ⟨closeCurrentDocument_none s, ?_⟩
  intro i hi
  have h0 : 0 ≤ s.mTabWidget.currentIndex := by omega
  have hlen := hinv.tabs.length_eq
  have hlt : s.mTabWidget.currentIndex < (s.mTabWidget.tabs.length : Int) := by
    rcases hinv.index with hh | hh
    · omega
    · omega
  obtain ⟨_, htabs, _⟩ := removeTab_current s.mTabWidget h0 hlt
  obtain ⟨_, _, d, scene, _, _, _, _, _, _, _, heq⟩ := closeCurrentDocument_eq hinv h0
  have hii : s.mTabWidget.currentIndex.toNat = i := by omega
  have hi1 : i < s.mDocuments.length := by omega
  have hi2 : i < s.mTabWidget.tabs.length := by omega
  refine ⟨_, heq, ?_, ?_, ?_, ?_⟩
  · simp [deleteMapDocument, deletedState, slotResult, closingState, hii]
  · simp only [deleteMapDocument, deletedState, slotResult, closingState, htabs, hii]
  · simp only [deleteMapDocument, deletedState, slotResult, closingState, hii,
      List.length_eraseIdx, hi1, if_true]
    omega
  · simp only [deleteMapDocument, deletedState, slotResult, closingState, htabs, hii,
      List.length_eraseIdx, hi2,
      if_true]
    omega

/-- Closing in `demoStart` (no current tab) and in `demoOne` (current index `0`). -/
theorem C6_closeCurrentDocument_removes_witness :
    Reachable demoStart ∧ demoStart.mTabWidget.currentIndex = -1 ∧
    demoStart.closeCurrentDocument = some demoStart ∧
    Reachable demoOne ∧ demoOne.mTabWidget.currentIndex = ((0 : Nat) : Int) ∧
    ∃ s', demoOne.closeCurrentDocument = some s' ∧
      s'.mDocuments = demoOne.mDocuments.eraseIdx 0 ∧
      s'.mTabWidget.tabs = demoOne.mTabWidget.tabs.eraseIdx 0 ∧
      s'.mDocuments.length + 1 = demoOne.mDocuments.length ∧
      s'.mTabWidget.tabs.length + 1 = demoOne.mTabWidget.tabs.length :=
  ⟨demoStart_reachable _, by decide,
    (C6_closeCurrentDocument_removes demoStart (demoStart_reachable _)).1 (by decide),
    demoOne_reachable _, by decide,
    (C6_closeCurrentDocument_removes demoOne (demoOne_reachable _)).2 0 (by decide)⟩

/-- C7: in every reachable state a non-empty document list has a current tab,
and `closeAllDocuments` terminates: with fuel for at least as many iterations as
there are open documents its loop runs exactly that many iterations and ends
with no document, no tab, no current document and no scene holding the tool, so
that the assertion of the destructor holds. -/
theorem C7_closeAllDocuments_terminates (s : DocumentManager) (h : Reachable s) :
    (s.mDocuments ≠ [] → 0 ≤ s.mTabWidget.currentIndex) ∧
    ∀ fuel : Nat, s.mDocuments.length ≤ fuel →
      ∃ s', closeAllDocuments fuel s = some (s', s.mDocuments.length) ∧
        s'.mDocuments = [] ∧ s'.mTabWidget.tabs = [] ∧ s'.currentDocument = some 0 ∧
        s'.mSceneWithTool = 0 ∧ s'.destroy = some () := by
  have hinv := ReachableBy.inv h
  constructor
  · intro hne
    rcases hinv.index with ⟨_, hnil⟩ | ⟨h0, _⟩
    · exact absurd hnil hne
    · exact h0
  · intro fuel hf
    obtain ⟨s', hs'⟩ := closeAllDocuments_total fuel s hinv hf
    obtain ⟨hinv', hnil⟩ := closeAllDocuments_inv fuel s s' _ hinv hs'
    have htabs : s'.mTabWidget.tabs = [] := by
      have := hinv'.tabs.length_eq
      rw [hnil] at this
      exact List.length_eq_zero.mp this.symm
    have hidx : s'.mTabWidget.currentIndex = -1 := by
      rcases hinv'.index with ⟨hi, _⟩ | ⟨h0, hlt⟩
      · exact hi
      · rw [hnil] at hlt
        simp at hlt
        omega
    refine ⟨s', hs', hnil, htabs, ?_, hinv'.noTabs htabs, ?_⟩
    · simp [currentDocument, hidx]
    · simp [destroy, hnil]

/-- Closing all documents of `demoOne` with fuel `3`. -/
theorem C7_closeAllDocuments_terminates_witness :
    Reachable demoOne ∧ demoOne.mDocuments.length ≤ 3 ∧
    ∃ s', closeAllDocuments 3 demoOne = some (s', demoOne.mDocuments.length) ∧
      s'.mDocuments = [] ∧ s'.mTabWidget.tabs = [] ∧ s'.currentDocument = some 0 ∧
      s'.mSceneWithTool = 0 ∧ s'.destroy = some () :=
  ⟨demoOne_reachable _, by decide,
    (C7_closeAllDocuments_terminates demoOne (demoOne_reachable _)).2 3 (by decide)⟩

/-- C8: in every reachable state the current index is `-1` or a valid index
into the document list, so `currentDocument()` is in range; it returns null
exactly when the index is `-1`, which is exactly when no document is open.
Every `currentDocument()` call made inside `currentIndexChanged` so far was in
range and returned null exactly for index `-1`; and `addDocument` (of a non-null
document that is not open), `switchToDocument` and `closeCurrentDocument`
complete, so no lookup made while they insert or remove a tab is out of
range. -/
theorem C8_lookup_in_range (s : DocumentManager) (h : Reachable s) :
    (s.mTabWidget.currentIndex = -1 ∨
      (0 ≤ s.mTabWidget.currentIndex ∧ s.mTabWidget.currentIndex < (s.mDocuments.length : Int))) ∧
    (∃ d, s.currentDocument = some d ∧ (d = 0 ↔ s.mTabWidget.currentIndex = -1) ∧
      (d = 0 ↔ s.mDocuments = [])) ∧
    (∀ l ∈ s.lookups,
      (l.index = -1 ∨ (0 ≤ l.index ∧ l.index < (l.size : Int))) ∧
      (l.result = 0 ↔ l.index = -1)) ∧
    (∀ d, d ≠ 0 → d ∉ s.mDocuments → ∃ s', s.addDocument d = some s') ∧
    (∀ index, ∃ s', s.switchToDocument index = some s') ∧
    (∃ s', s.closeCurrentDocument = some s') := by
  have hinv := ReachableBy.inv h
  refine ⟨?_, ?_, hinv.lookups, ?_, ?_, closeCurrentDocument_total hinv⟩
  · rcases hinv.index with ⟨hi, _⟩ | hh
    · exact Or.inl hi
    · exact Or.inr hh
  · obtain ⟨d, scene, hc⟩ := hinv.toSync.currentIs
    refine ⟨d, hc.docEq, hc.docNull, ?_⟩
    rw [hc.docNull]
    constructor
    · intro hi
      rcases hinv.index with ⟨_, hnil⟩ | ⟨h0, _⟩
      · exact hnil
      · omega
    · intro hnil
      rcases hinv.index with ⟨hi, _⟩ | ⟨h0, hlt⟩
      · exact hi
      · rw [hnil] at hlt
        simp at hlt
        omega
  · intro d hd0 hd
    exact ⟨_, addDocument_eq hinv d hd0 hd⟩
  · intro index
    by_cases hchg : s.mTabWidget.validIndex index = true ∧ s.mTabWidget.currentIndex ≠ index
    · obtain ⟨d, scene, _, heq⟩ := switchToDocument_changed hinv.toSync index hchg.1 hchg.2
      exact ⟨_, heq⟩
    · exact ⟨s, switchToDocument_same index hchg⟩

/-- The lookups of `demoOne`. -/
theorem C8_lookup_in_range_witness :
    Reachable demoOne ∧
    ((demoOne.mTabWidget.currentIndex = -1 ∨
      (0 ≤ demoOne.mTabWidget.currentIndex ∧
        demoOne.mTabWidget.currentIndex < (demoOne.mDocuments.length : Int))) ∧
    (∃ d, demoOne.currentDocument = some d ∧ (d = 0 ↔ demoOne.mTabWidget.currentIndex = -1) ∧
      (d = 0 ↔ demoOne.mDocuments = [])) ∧
    (∀ l ∈ demoOne.lookups,
      (l.index = -1 ∨ (0 ≤ l.index ∧ l.index < (l.size : Int))) ∧
      (l.result = 0 ↔ l.index = -1)) ∧
    (∀ d, d ≠ 0 → d ∉ demoOne.mDocuments → ∃ s', demoOne.addDocument d = some s') ∧
    (∀ index, ∃ s', demoOne.switchToDocument index = some s') ∧
    (∃ s', demoOne.closeCurrentDocument = some s')) :=
  ⟨demoOne_reachable _, C8_lookup_in_range demoOne (demoOne_reachable _)⟩

theorem demoNullTool_step : demoOne.setSelectedTool 0 = some demoNullTool :=
  setSelectedTool_scene demoOne 0 (by decide) (by decide) (by decide)

theorem demoNullTool_reachable : Reachable demoNullTool :=
  ReachableBy.setSelectedTool 0 demoOne demoNullTool (demoOne_reachable _) trivial
    demoNullTool_step

theorem demoTwo_step : demoNullTool.addDocument 8 = some demoTwo :=
  addDocument_eq demoNullTool_reachable.inv 8 (by decide) (by decide)

theorem demoTwo_reachable : Reachable demoTwo :=
  ReachableBy.addDocument 8 demoNullTool demoTwo demoNullTool_reachable demoTwo_step

/-- C9 fails as stated: after constructing the manager with tool `5`,
`addDocument(7)` and `setSelectedTool(0)`, the recorded scene `2` is non-null
and still carries tool `5` while the selected tool is null; after a further
`addDocument(8)` the calls on scene `2` are enable, disable, disable. -/
theorem C9_counterexample :
    new 5 (fun _ => "") = some demoStart ∧
    demoStart.addDocument 7 = some demoOne ∧
    demoOne.setSelectedTool 0 = some demoNullTool ∧
    demoNullTool.addDocument 8 = some demoTwo ∧
    Reachable demoNullTool ∧ Reachable demoTwo ∧
    demoNullTool.mSceneWithTool = 2 ∧
    demoNullTool.mSelectedTool = 0 ∧
    (demoNullTool.scenes 2).map (fun sc => sc.selectedTool) = some 5 ∧
    callsOn 2 demoTwo.sceneCalls = [SceneCall.enable, SceneCall.disable, SceneCall.disable] ∧
    ¬ Alternates (callsOn 2 demoTwo.sceneCalls) :=
  ⟨new_eq 5 _, demoOne_step, demoNullTool_step, demoTwo_step, demoNullTool_reachable,
    demoTwo_reachable, by decide, by decide, by decide, by decide,
    by
      have hcalls : callsOn 2 demoTwo.sceneCalls =
          [SceneCall.enable, SceneCall.disable, SceneCall.disable] := by decide
      rw [hcalls]
      simp [Alternates]⟩

/-- C9, amended: in every reachable state (`setSelectedTool` called with any
tool, null included), if the recorded scene and the selected tool are both
non-null, the tool set on that scene is the selected tool; on every scene the
recorded calls start with enable and no enable directly follows an enable; and
`setSelectedTool` with the tool already selected changes nothing.  In the
states reached while `setSelectedTool` is only called with non-null tools, the
tool set on a non-null recorded scene always is the selected tool and the calls
on every scene strictly alternate. -/
theorem C9_scene_tool_amended (s : DocumentManager) (h : Reachable s) :
    (s.mSceneWithTool ≠ 0 → s.mSelectedTool ≠ 0 →
      ∃ sc, s.scenes s.mSceneWithTool = some sc ∧ sc.selectedTool = s.mSelectedTool) ∧
    (∀ p, StartsWithEnable (callsOn p s.sceneCalls) ∧ NoRepeatedEnable (callsOn p s.sceneCalls)) ∧
    s.setSelectedTool s.mSelectedTool = some s ∧
    (ReachableNonNull s →
      (s.mSceneWithTool ≠ 0 →
        ∃ sc, s.scenes s.mSceneWithTool = some sc ∧ sc.selectedTool = s.mSelectedTool) ∧
      ∀ p, Alternates (callsOn p s.sceneCalls)) := by
  have hinv := ReachableBy.inv h
  refine ⟨?_, fun p => ⟨hinv.logHead p, hinv.logPair p⟩, setSelectedTool_same s, ?_⟩
  · intro hs ht
    obtain ⟨sc, h1, h2, _⟩ := hinv.toolSet hs ht
    exact ⟨sc, h1, h2⟩
  · intro hnn
    have hst := ReachableBy.strict hnn
    exact ⟨hst.toolSet, hst.alternates⟩

/-- The scene and the call log of `demoRetooled`, reached without a null tool:
scene `4` carries the selected tool `6`, and the calls on it are enable,
disable, enable. -/
theorem C9_scene_tool_amended_witness :
    Reachable demoRetooled ∧ ReachableNonNull demoRetooled ∧
    demoRetooled.mSceneWithTool = 4 ∧ demoRetooled.mSelectedTool = 6 ∧
    callsOn 4 demoRetooled.sceneCalls =
      [SceneCall.enable, SceneCall.disable, SceneCall.enable] ∧
    callsOn 2 demoRetooled.sceneCalls = [SceneCall.enable, SceneCall.disable] ∧
    (∃ sc, demoRetooled.scenes 4 = some sc ∧ sc.selectedTool = demoRetooled.mSelectedTool) ∧
    (∀ p, StartsWithEnable (callsOn p demoRetooled.sceneCalls) ∧
      Alternates (callsOn p demoRetooled.sceneCalls)) ∧
    demoRetooled.setSelectedTool demoRetooled.mSelectedTool = some demoRetooled :=
  ⟨demoRetooled_reachableAny, demoRetooled_reachable, by decide, by decide, by decide, by decide,
    ((C9_scene_tool_amended demoRetooled demoRetooled_reachableAny).2.2.2
      demoRetooled_reachable).1 (by decide),
    fun p => ⟨((C9_scene_tool_amended demoRetooled demoRetooled_reachableAny).2.1 p).1,
      ((C9_scene_tool_amended demoRetooled demoRetooled_reachableAny).2.2.2
        demoRetooled_reachable).2 p⟩,
    (C9_scene_tool_amended demoRetooled demoRetooled_reachableAny).2.2.1⟩

end DocumentManager
end Tiled
